import Mathlib

/-!
Shallow embedding of the duplicate-marking pipeline of `src/main.rs`
(image_deduplicator): directory traversal (`ImageSet::new` over `walkdir`),
grouping sort (`ImageSet::sort`), and duplicate marking
(`ImageSet::mark_duplicates`), together with the path-suffix duplicate flag
(`ImageData::is_duplicate`) and the per-directory duplicate log
(`add_to_logfile`).

Modelling conventions:
* paths are strings; Rust `Path::extension()` is modelled on the character
  list of the final `/`-separated component, following Rust's rule that a
  leading-dot file name with no further dot has no extension;
* file contents are strings carried in the record (the bytes on disk at the
  record's path); `size` is the byte length captured from metadata;
* sha-256 is modelled as a collision-free digest of the content: since the
  program only ever compares digests for equality, the digest function is
  represented by the identity on contents;
* file-system side effects (renames, log appends, hash computations) are
  recorded as an explicit chronological event list in the state;
* `FileTime` values are integers.
-/

/-- Sentinel extension, `static DUPLICATE_EXTENSION` in the source. -/
def DUPLICATE_EXTENSION : String := "duplicate"

/-- Characters of a list strictly after the last occurrence of `sep`
(the whole list when `sep` does not occur). -/
def afterLast (sep : Char) (cs : List Char) : List Char :=
  (cs.reverse.takeWhile (fun c => c ≠ sep)).reverse

/-- Final `/`-separated component of a path, as Rust `Path::file_name`
sees it for the paths this program builds. -/
def lastComponent (cs : List Char) : List Char :=
  afterLast '/' cs

/-- Rust `Path::extension()` on a file name: the part after the final dot,
except that a name with no dot, or a name whose only dot is the leading
character (a hidden file such as `.duplicate`), has no extension. -/
def extensionOf : List Char → Option (List Char)
  | [] => none
  | _ :: rest => if '.' ∈ rest then some (afterLast '.' rest) else none

/-- Duplicate flag as a function of a path string, following
`ImageData::is_duplicate`: the extension of the path equals
`DUPLICATE_EXTENSION`. -/
def pathIsDuplicate (p : String) : Bool :=
  match extensionOf (lastComponent p.data) with
  | some ext => ext == DUPLICATE_EXTENSION.data
  | none => false

/-- Duplicate flag written exactly as the spec words it: the path string
ends with the sentinel suffix `.duplicate`. Used only to compare the
spec's wording against the code's `is_duplicate`. -/
def specDuplicateFlag (p : String) : Bool :=
  List.isSuffixOf ('.' :: DUPLICATE_EXTENSION.data) p.data

/-- In-memory record for one discovered file, `struct ImageData`.
The `content` field carries the bytes on disk at `path` (read lazily by
`hash()` in the source); it is what the modelled digest is computed from. -/
structure ImageData where
  path : String
  create_time : Int
  size : Nat
  content : String
  hash : Option String
deriving DecidableEq

instance : Inhabited ImageData := ⟨⟨"", 0, 0, "", none⟩⟩

/-- Duplicate test of `ImageData::is_duplicate`: derived from the path's
extension, no stored flag. -/
def ImageData.is_duplicate (d : ImageData) : Bool :=
  pathIsDuplicate d.path

/-- Digest model for `Sha256` over the file content: the program only
compares digests for equality, so the collision-free digest is represented
by the identity function on contents. -/
def sha256Hex (content : String) : String := content

/-- Value returned by `ImageData::hash()`: the cached digest when present,
otherwise the digest of the file content. -/
def ImageData.hashValue (d : ImageData) : String :=
  match d.hash with
  | some h => h
  | none => sha256Hex d.content

/-- Record after `ImageData::hash()` has run: the digest is memoized. -/
def ImageData.afterHash (d : ImageData) : ImageData :=
  { d with hash := some d.hashValue }

/-- Whether a call to `ImageData::hash()` actually computes a digest
(cache miss) rather than returning the memoized value. -/
def ImageData.hashMiss (d : ImageData) : Bool :=
  d.hash == none

/-- Record after `ImageData::mark_duplicate`: the file is renamed by
appending the sentinel extension and the stored path follows. -/
def ImageData.mark_duplicate (d : ImageData) : ImageData :=
  { d with path := d.path ++ "." ++ DUPLICATE_EXTENSION }

/-- Observable actions of `mark_duplicates`, in chronological order:
digest computations (cache misses inside `hash()`), hash comparisons, and
markings (the `fs::rename` plus `add_to_logfile` pair). Indices refer to
positions in the record collection. -/
inductive MarkEvent where
  | hashed (idx : Nat) (path : String)
  | compared (base cand : Nat)
  | marked (base cand : Nat) (oldPath newPath basePath : String)
deriving DecidableEq

/-- State threaded through `ImageSet::mark_duplicates`: the record vector,
the two summary counters, the duplicate log (pairs of renamed duplicate
path and original path, one per `add_to_logfile` call), the chronological
event list, the percentage milestones printed, and a flag recording
whether the percentage computation ever divided by zero (a panic in the
Rust source). -/
structure MarkState where
  images : List ImageData
  duplicate_count : Nat
  duplicate_size : Nat
  log : List (String × String)
  events : List MarkEvent
  percents : List Nat
  divByZero : Bool
deriving DecidableEq

/-- Element access used by the loops, `self.images[i]` (total, with a
default record out of range; the loops only index in range). -/
def getImg (l : List ImageData) (i : Nat) : ImageData :=
  l.getD i default

/-- Body of the inner `while` of `mark_duplicates` for candidate `j`
against `base`: skip candidates that are already duplicates, otherwise
hash candidate then base (memoizing both), compare, and on equality mark
the candidate (rename, counters, log). -/
def innerBody (base j : Nat) (s : MarkState) : MarkState :=
  let cand := getImg s.images j
  if cand.is_duplicate then s
  else
    let hashEvC : List MarkEvent :=
      if cand.hashMiss then [MarkEvent.hashed j cand.path] else []
    let imgs1 := s.images.set j cand.afterHash
    let bse := getImg imgs1 base
    let hashEvB : List MarkEvent :=
      if bse.hashMiss then [MarkEvent.hashed base bse.path] else []
    let imgs2 := imgs1.set base bse.afterHash
    if cand.hashValue == bse.hashValue then
      let candM := (getImg imgs2 j).mark_duplicate
      let imgs3 := imgs2.set j candM
      let basePath := (getImg imgs3 base).path
      { s with
        images := imgs3,
        duplicate_count := s.duplicate_count + 1,
        duplicate_size := s.duplicate_size + (getImg imgs3 j).size,
        log := s.log ++ [(candM.path, basePath)],
        events := s.events ++ hashEvC ++ hashEvB ++
          [MarkEvent.compared base j,
           MarkEvent.marked base j (getImg imgs2 j).path candM.path basePath] }
    else
      { s with
        images := imgs2,
        events := s.events ++ hashEvC ++ hashEvB ++ [MarkEvent.compared base j] }

theorem innerBody_images_length (base j : Nat) (s : MarkState) :
    (innerBody base j s).images.length = s.images.length := by
  unfold innerBody
  dsimp only
  split
  · rfl
  · split <;> simp [List.length_set]

/-- Inner `while candidate_dup < len && sizes equal` loop of
`mark_duplicates`. -/
def innerLoop (base j : Nat) (s : MarkState) : MarkState :=
  if j < s.images.length ∧ (getImg s.images j).size = (getImg s.images base).size then
    innerLoop base (j + 1) (innerBody base j s)
  else s
termination_by s.images.length - j
decreasing_by simp [innerBody_images_length]; omega

theorem innerLoop_images_length (base j : Nat) (s : MarkState) :
    (innerLoop base j s).images.length = s.images.length := by
  induction j, s using innerLoop.induct base with
  | case1 j s h ih =>
      rw [innerLoop, if_pos h]
      rw [ih, innerBody_images_length]
  | case2 j s h =>
      rw [innerLoop, if_neg h]

/-- Percentage printed for a base index, `(base_entry * 20 / len) * 5`. -/
def pctOf (base len : Nat) : Nat :=
  (base * 20 / len) * 5

/-- State update of one outer iteration before the inner scan: the
division-by-zero flag (a Rust panic if `len` were `0`) and the percentage
milestone print. -/
def pctState (base prevPct : Nat) (s : MarkState) : MarkState :=
  let pct := pctOf base s.images.length
  let s1 := if s.images.length = 0 then { s with divByZero := true } else s
  if prevPct ≠ pct then { s1 with percents := s1.percents ++ [pct] } else s1

theorem pctState_images_length (base prevPct : Nat) (s : MarkState) :
    (pctState base prevPct s).images.length = s.images.length := by
  unfold pctState
  dsimp only
  split_ifs <;> rfl

/-- Outer `for base_entry in 0..len` loop of `mark_duplicates`, carrying
the `previous_percentage` accumulator (initially `101`). -/
def outerLoop (base prevPct : Nat) (s : MarkState) : MarkState :=
  if base < s.images.length then
    if (getImg s.images base).is_duplicate then
      outerLoop (base + 1) prevPct s
    else
      outerLoop (base + 1) (pctOf base s.images.length)
        (innerLoop base (base + 1) (pctState base prevPct s))
  else s
termination_by s.images.length - base
decreasing_by
  · omega
  · rw [innerLoop_images_length, pctState_images_length]
    omega

/-- Initial state of `mark_duplicates` over a record list. -/
def initMarkState (l : List ImageData) : MarkState :=
  { images := l, duplicate_count := 0, duplicate_size := 0, log := [],
    events := [], percents := [], divByZero := false }

/-- Body of `ImageSet::mark_duplicates`. -/
def ImageSet.mark_duplicates (l : List ImageData) : MarkState :=
  outerLoop 0 101 (initMarkState l)

/-- Comparator of `ImageSet::sort`: `a.size.cmp(&b.size)` then
`a.create_time.cmp(&b.create_time)`, turned into the corresponding
not-greater test. -/
def imageLE (a b : ImageData) : Bool :=
  a.size < b.size ∨ (a.size = b.size ∧ a.create_time ≤ b.create_time)

/-- Grouping sort `ImageSet::sort`: Rust `sort_by` with the size-then-
creation-time comparator; `Vec::sort_by` is a stable merge sort. -/
def ImageSet.sort (l : List ImageData) : List ImageData :=
  l.mergeSort imageLE

/-- Directory tree supplied to the traversal. File leaves carry the bytes,
an optional native creation timestamp, and the modification timestamp. -/
inductive FsTree where
  | file (name : String) (content : String) (createTime : Option Int) (modTime : Int)
  | dir (name : String) (children : List FsTree)

/-- Name of an entry (last path component; for the traversal root this is
the path given on the command line). -/
def FsTree.name : FsTree → String
  | .file n _ _ _ => n
  | .dir n _ => n

/-- Test of `is_hidden`: the entry's file name starts with a dot. -/
def isHiddenName (s : String) : Bool :=
  match s.data with
  | [] => false
  | c :: _ => c = '.'

/-- Result of the traversal in `ImageSet::new`: the retained records, the
count of pre-existing duplicates that were excluded, and the paths whose
zero modification time was repaired in place
(`correct_zero_modification_date`). -/
structure WalkResult where
  images : List ImageData
  dupCount : Nat
  repairs : List String
deriving DecidableEq

/-- Concatenation of traversal results in visiting order. -/
def WalkResult.append (a b : WalkResult) : WalkResult :=
  ⟨a.images ++ b.images, a.dupCount + b.dupCount, a.repairs ++ b.repairs⟩

/-- Creation-time derivation of `get_create_time`: prefer the native
creation timestamp, fall back to the last modification timestamp. -/
def get_create_time (createTime : Option Int) (modTime : Int) : Int :=
  createTime.getD modTime

/-- Record built by `ImageData::new` for the file at `path`. -/
def mkImageData (path : String) (content : String) (createTime : Option Int)
    (modTime : Int) : ImageData :=
  ⟨path, get_create_time createTime modTime, content.length, content, none⟩

mutual

/-- Traversal of one entry at its full `path` and `depth`, as driven by
the `loop` in `ImageSet::new`: hidden directories at positive depth are
pruned (`skip_current_dir`), other directories are descended, files become
records unless their path already carries the sentinel extension, in which
case they are tallied as pre-existing duplicates. -/
def walkEntry (t : FsTree) (path : String) (depth : Nat) : WalkResult :=
  match t with
  | .file _ content createTime modTime =>
      let img := mkImageData path content createTime modTime
      let repairs := if modTime = 0 then [path] else []
      if img.is_duplicate then ⟨[], 1, repairs⟩ else ⟨[img], 0, repairs⟩
  | .dir name children =>
      if isHiddenName name ∧ 0 < depth then ⟨[], 0, []⟩
      else walkChildren children path (depth + 1)
termination_by sizeOf t

/-- Traversal of the children of a directory whose full path is `dirPath`;
`d` is the children's depth. -/
def walkChildren (ts : List FsTree) (dirPath : String) (d : Nat) : WalkResult :=
  match ts with
  | [] => ⟨[], 0, []⟩
  | t :: rest =>
      (walkEntry t (dirPath ++ "/" ++ t.name) d).append (walkChildren rest dirPath d)
termination_by sizeOf ts

end

/-- Traversal half of `ImageSet::new`. A `none` root models a root path
that does not exist: `walkdir` then yields a single error whose io kind is
`NotFound`, which is not `PermissionDenied`, so the `match` in
`ImageSet::new` hits the `panic!` arm and the run aborts; the model
returns the fatal error. -/
def ImageSet.new (root : Option FsTree) : Except String WalkResult :=
  match root with
  | none => Except.error "ERROR: IO error: root path not found"
  | some t => Except.ok (walkEntry t t.name 0)

/-! ### List and path infrastructure -/

theorem takeWhile_all {α : Type} {p : α → Bool} {l : List α}
    (h : ∀ a ∈ l, p a = true) : l.takeWhile p = l := by
  induction l with
  | nil => rfl
  | cons a l ih =>
      have h1 : p a = true := h a (by simp)
      have h2 : l.takeWhile p = l := ih (fun x hx => h x (by simp [hx]))
      simp [List.takeWhile_cons, h1, h2]

theorem takeWhile_append_all {α : Type} {p : α → Bool} {as bs : List α}
    (h : ∀ a ∈ as, p a = true) :
    (as ++ bs).takeWhile p = as ++ bs.takeWhile p := by
  induction as with
  | nil => rfl
  | cons a as ih =>
      have h1 : p a = true := h a (by simp)
      have h2 : (as ++ bs).takeWhile p = as ++ bs.takeWhile p :=
        ih (fun x hx => h x (by simp [hx]))
      simp [List.takeWhile_cons, h1, h2]

theorem takeWhile_append_stop {α : Type} {p : α → Bool} {as bs : List α} {b : α}
    (ha : ∀ a ∈ as, p a = true) (hb : p b = false) :
    (as ++ b :: bs).takeWhile p = as := by
  rw [takeWhile_append_all ha, List.takeWhile_cons, hb]
  simp

theorem afterLast_append {sep : Char} {xs ys : List Char} (h : sep ∉ ys) :
    afterLast sep (xs ++ sep :: ys) = ys := by
  unfold afterLast
  rw [List.reverse_append, List.reverse_cons, List.append_assoc, List.singleton_append]
  rw [takeWhile_append_stop ?hall (by simp)]
  · exact List.reverse_reverse ys
  case hall =>
    intro a ha
    rw [List.mem_reverse] at ha
    simp only [decide_eq_true_eq]
    exact fun he => h (he ▸ ha)

theorem afterLast_of_not_mem {sep : Char} {cs : List Char} (h : sep ∉ cs) :
    afterLast sep cs = cs := by
  unfold afterLast
  rw [takeWhile_all ?hall]
  · exact List.reverse_reverse cs
  case hall =>
    intro a ha
    rw [List.mem_reverse] at ha
    simp only [decide_eq_true_eq]
    exact fun he => h (he ▸ ha)

theorem afterLast_not_mem (sep : Char) (cs : List Char) : sep ∉ afterLast sep cs := by
  unfold afterLast
  intro hmem
  rw [List.mem_reverse] at hmem
  have := List.mem_takeWhile_imp hmem
  simp at this

theorem afterLast_decomp {sep : Char} {cs : List Char} (h : sep ∈ cs) :
    ∃ t, cs = t ++ sep :: afterLast sep cs := by
  have hne : cs.reverse.dropWhile (fun a => a ≠ sep) ≠ [] := by
    intro hnil
    have hmem : sep ∈ cs.reverse.takeWhile (fun a => a ≠ sep) := by
      rw [← List.append_nil (cs.reverse.takeWhile _), ← hnil,
        List.takeWhile_append_dropWhile, List.mem_reverse]
      exact h
    have := List.mem_takeWhile_imp hmem
    simp at this
  obtain ⟨d, rest, hd⟩ := List.exists_cons_of_ne_nil hne
  have hdrop : d = sep := by
    have hh := List.head_dropWhile_not (fun a : Char => decide (a ≠ sep)) cs.reverse
      (by simpa using hne)
    simp only [hd, List.head_cons, decide_eq_false_iff_not, not_not] at hh
    exact hh
  have key : cs.reverse = cs.reverse.takeWhile (fun a => a ≠ sep) ++ sep :: rest := by
    conv_lhs => rw [← List.takeWhile_append_dropWhile (fun a : Char => decide (a ≠ sep)) cs.reverse]
    rw [hd, hdrop]
  refine ⟨rest.reverse, ?_⟩
  calc cs = cs.reverse.reverse := (List.reverse_reverse cs).symm
    _ = (cs.reverse.takeWhile (fun a => a ≠ sep) ++ sep :: rest).reverse := by rw [← key]
    _ = rest.reverse ++ sep :: afterLast sep cs := by
        rw [List.reverse_append, List.reverse_cons, List.append_assoc, List.singleton_append]
        rfl

theorem dot_not_mem_ext : '.' ∉ DUPLICATE_EXTENSION.data := by decide

theorem extensionOf_eq_dup_iff {f : List Char} :
    extensionOf f = some DUPLICATE_EXTENSION.data ↔
      ∃ s, s ≠ [] ∧ f = s ++ '.' :: DUPLICATE_EXTENSION.data := by
  constructor
  · intro hext
    cases f with
    | nil => simp [extensionOf] at hext
    | cons c rest =>
        rw [extensionOf] at hext
        by_cases hdot : '.' ∈ rest
        · rw [if_pos hdot] at hext
          have ha := Option.some.inj hext
          obtain ⟨t, ht⟩ := afterLast_decomp hdot
          refine ⟨c :: t, by simp, ?_⟩
          rw [← ha, List.cons_append]
          exact congrArg (fun x => c :: x) ht
        · rw [if_neg hdot] at hext
          exact absurd hext (by simp)
  · rintro ⟨s, hs, hf⟩
    match s, hs with
    | c :: t, _ =>
        subst hf
        rw [List.cons_append, extensionOf]
        rw [if_pos (by simp)]
        rw [afterLast_append dot_not_mem_ext]

theorem pathIsDuplicate_iff {p : String} :
    pathIsDuplicate p = true ↔
      ∃ s, s ≠ [] ∧ lastComponent p.data = s ++ '.' :: DUPLICATE_EXTENSION.data := by
  rw [← extensionOf_eq_dup_iff]
  unfold pathIsDuplicate
  cases hx : extensionOf (lastComponent p.data) with
  | none => simp
  | some e => simp

theorem lastComponent_append_no_slash {xs ys : List Char} (h : '/' ∉ ys) :
    lastComponent (xs ++ ys) = lastComponent xs ++ ys := by
  unfold lastComponent afterLast
  rw [List.reverse_append, takeWhile_append_all ?hall, List.reverse_append,
    List.reverse_reverse]
  case hall =>
    intro a ha
    rw [List.mem_reverse] at ha
    simp only [decide_eq_true_eq]
    exact fun he => h (he ▸ ha)

theorem getImg_set_self {l : List ImageData} {i : Nat} {a : ImageData}
    (h : i < l.length) : getImg (l.set i a) i = a := by
  simp [getImg, List.getD_eq_getElem?_getD, List.getElem?_set_self h]

theorem getImg_set_ne {l : List ImageData} {i j : Nat} {a : ImageData}
    (h : i ≠ j) : getImg (l.set i a) j = getImg l j := by
  simp [getImg, List.getD_eq_getElem?_getD, List.getElem?_set_ne h]

theorem getImg_eq_get {l : List ImageData} {i : Nat} (h : i < l.length) :
    getImg l i = l.get ⟨i, h⟩ := by
  simp [getImg, List.getD_eq_getElem?_getD, List.getElem?_eq_getElem h]

theorem getImg_of_ge {l : List ImageData} {i : Nat} (h : l.length ≤ i) :
    getImg l i = default := by
  simp [getImg, List.getD_eq_getElem?_getD, List.getElem?_eq_none h]

theorem afterHash_path (d : ImageData) : d.afterHash.path = d.path := rfl

theorem afterHash_size (d : ImageData) : d.afterHash.size = d.size := rfl

theorem afterHash_content (d : ImageData) : d.afterHash.content = d.content := rfl

theorem afterHash_create_time (d : ImageData) : d.afterHash.create_time = d.create_time := rfl

theorem afterHash_is_duplicate (d : ImageData) :
    d.afterHash.is_duplicate = d.is_duplicate := rfl

theorem mark_duplicate_path (d : ImageData) :
    d.mark_duplicate.path = d.path ++ "." ++ DUPLICATE_EXTENSION := rfl

theorem mark_duplicate_size (d : ImageData) : d.mark_duplicate.size = d.size := rfl

theorem mark_duplicate_content (d : ImageData) : d.mark_duplicate.content = d.content := rfl

theorem mark_duplicate_create_time (d : ImageData) :
    d.mark_duplicate.create_time = d.create_time := rfl

theorem mark_duplicate_hash (d : ImageData) : d.mark_duplicate.hash = d.hash := rfl

theorem data_append_dot_ext (p : String) :
    (p ++ "." ++ DUPLICATE_EXTENSION).data = p.data ++ '.' :: DUPLICATE_EXTENSION.data := by
  rw [String.data_append, String.data_append, List.append_assoc]
  rfl

theorem slash_not_mem_dot_ext : '/' ∉ '.' :: DUPLICATE_EXTENSION.data := by decide

theorem pathIsDuplicate_mark {p : String} (h : lastComponent p.data ≠ []) :
    pathIsDuplicate (p ++ "." ++ DUPLICATE_EXTENSION) = true := by
  rw [pathIsDuplicate_iff]
  refine ⟨lastComponent p.data, h, ?_⟩
  rw [data_append_dot_ext, lastComponent_append_no_slash slash_not_mem_dot_ext]

theorem lastComponent_mark (p : String) :
    lastComponent (p ++ "." ++ DUPLICATE_EXTENSION).data =
      lastComponent p.data ++ '.' :: DUPLICATE_EXTENSION.data := by
  rw [data_append_dot_ext, lastComponent_append_no_slash slash_not_mem_dot_ext]

/-! ### Claim C2: behaviour on a non-existent root -/

/-- Claim C2 (code behaviour, refuting the claim): when the root path does
not exist, the traversal does not yield an empty record sequence; instead
`walkdir` yields a `NotFound` error, which is not `PermissionDenied`, so
`ImageSet::new` panics and the run aborts. The model returns the fatal
error value for a missing root. -/
theorem imageSet_new_missing_root_aborts :
    ImageSet.new none = Except.error "ERROR: IO error: root path not found" := rfl

/-! ### Claim C6: duplicate status as a function of the path -/

/-- Claim C6 (counterexample): a record whose path ends with the sentinel
suffix `.duplicate` but whose file name is exactly `.duplicate` (a hidden
file) is not considered a duplicate by `ImageData::is_duplicate`, because
Rust's `Path::extension()` returns `None` for it. This refutes the claimed
equivalence with "path ends with `.duplicate`". -/
theorem is_duplicate_endsWith_counterexample :
    specDuplicateFlag (ImageData.mk "photos/.duplicate" 0 3 "abc" none).path = true ∧
      (ImageData.mk "photos/.duplicate" 0 3 "abc" none).is_duplicate = false := by
  constructor
  · decide
  · decide

/-- Claim C6 (amended): duplicate status is a pure function of the
record's current path with no separately stored flag, and a record is
duplicate iff the final component of its path consists of a nonempty stem
followed by `.duplicate` (equivalently: the path ends with `.duplicate`
and its file name is not exactly `.duplicate`). -/
theorem is_duplicate_characterisation :
    (∀ d d' : ImageData, d.path = d'.path → d.is_duplicate = d'.is_duplicate) ∧
      (∀ d : ImageData, d.is_duplicate = true ↔
        ∃ s, s ≠ [] ∧ lastComponent d.path.data = s ++ '.' :: DUPLICATE_EXTENSION.data) := by
  constructor
  · intro d d' h
    unfold ImageData.is_duplicate
    rw [h]
  · intro d
    exact pathIsDuplicate_iff

/-- Witness for the amended C6 at a concrete record. -/
theorem is_duplicate_characterisation_witness :
    (ImageData.mk "photos/a.jpg.duplicate" 0 3 "abc" none).is_duplicate = true :=
  (is_duplicate_characterisation.2 _).mpr ⟨"a.jpg".data, by decide, by decide⟩

/-! ### Claim C9: the percentage division never divides by zero -/

theorem innerBody_divByZero (base j : Nat) (s : MarkState) :
    (innerBody base j s).divByZero = s.divByZero := by
  unfold innerBody
  dsimp only
  split
  · rfl
  · split <;> rfl

theorem innerLoop_divByZero (base j : Nat) (s : MarkState) :
    (innerLoop base j s).divByZero = s.divByZero := by
  induction j, s using innerLoop.induct base with
  | case1 j s h ih =>
      rw [innerLoop, if_pos h, ih, innerBody_divByZero]
  | case2 j s h =>
      rw [innerLoop, if_neg h]

theorem pctState_divByZero {base prevPct : Nat} {s : MarkState}
    (h : s.images.length ≠ 0) :
    (pctState base prevPct s).divByZero = s.divByZero := by
  unfold pctState
  dsimp only
  rw [if_neg h]
  split <;> rfl

theorem outerLoop_divByZero (base prevPct : Nat) (s : MarkState)
    (h : s.divByZero = false) : (outerLoop base prevPct s).divByZero = false := by
  induction base, prevPct, s using outerLoop.induct with
  | case1 base prevPct s hlt hdup ih =>
      rw [outerLoop, if_pos hlt, if_pos hdup]
      exact ih h
  | case2 base prevPct s hlt hdup ih =>
      rw [outerLoop, if_pos hlt, if_neg hdup]
      refine ih ?_
      rw [innerLoop_divByZero, pctState_divByZero (by omega), h]
  | case3 base prevPct s hlt =>
      rw [outerLoop, if_neg hlt]
      exact h

/-- Claim C9: the percentage computation `(base_entry * 20 / len) * 5` in
`mark_duplicates` never divides by zero, because it is only reached for a
base index inside `0..len`, which requires a non-empty collection. -/
theorem mark_duplicates_no_div_by_zero (l : List ImageData) :
    (ImageSet.mark_duplicates l).divByZero = false :=
  outerLoop_divByZero 0 101 (initMarkState l) rfl

/-! ### Claim C7: the grouping sort -/

theorem imageLE_iff {a b : ImageData} :
    imageLE a b = true ↔
      a.size < b.size ∨ (a.size = b.size ∧ a.create_time ≤ b.create_time) := by
  unfold imageLE
  exact decide_eq_true_iff

theorem imageLE_trans (a b c : ImageData) (hab : imageLE a b = true)
    (hbc : imageLE b c = true) : imageLE a c = true := by
  rw [imageLE_iff] at hab hbc ⊢
  rcases hab with h1 | ⟨h1, h1t⟩ <;> rcases hbc with h2 | ⟨h2, h2t⟩
  · exact Or.inl (by omega)
  · exact Or.inl (by omega)
  · exact Or.inl (by omega)
  · exact Or.inr ⟨by omega, le_trans h1t h2t⟩

theorem imageLE_total (a b : ImageData) : (imageLE a b || imageLE b a) = true := by
  rcases Bool.eq_false_or_eq_true (imageLE a b) with h | h
  · rw [h]
    rfl
  · rw [h, Bool.false_or]
    rw [imageLE_iff]
    rw [Bool.eq_false_iff, ne_eq, imageLE_iff] at h
    push_neg at h
    obtain ⟨h1, h2⟩ := h
    rcases Nat.lt_or_ge b.size a.size with hs | hs
    · exact Or.inl hs
    · have hss : a.size = b.size := by omega
      exact Or.inr ⟨hss.symm, le_of_lt (h2 hss)⟩

theorem sort_pairwise (l : List ImageData) :
    List.Pairwise (fun a b : ImageData =>
      a.size < b.size ∨ (a.size = b.size ∧ a.create_time ≤ b.create_time))
      (ImageSet.sort l) := by
  have hp := List.sorted_mergeSort imageLE_trans imageLE_total l
  exact hp.imp (fun h => imageLE_iff.mp h)

theorem sort_sizes_pairwise (l : List ImageData) :
    List.Pairwise (fun a b : ImageData => a.size ≤ b.size) (ImageSet.sort l) :=
  (sort_pairwise l).imp (fun h => by rcases h with h | ⟨h, _⟩ <;> omega)

theorem pairwise_sizes_mono {L : List ImageData}
    (hp : List.Pairwise (fun a b : ImageData => a.size ≤ b.size) L) :
    ∀ i j : Nat, i ≤ j → j < L.length →
      (getImg L i).size ≤ (getImg L j).size := by
  intro i j hij hj
  rcases Nat.eq_or_lt_of_le hij with heq | hlt
  · subst heq
    exact le_refl _
  · have hi : i < L.length := lt_trans hlt hj
    rw [getImg_eq_get hi, getImg_eq_get hj]
    exact List.pairwise_iff_get.mp hp ⟨i, hi⟩ ⟨j, hj⟩ hlt

theorem sort_sizes_mono (l : List ImageData) :
    ∀ i j : Nat, i ≤ j → j < (ImageSet.sort l).length →
      (getImg (ImageSet.sort l) i).size ≤ (getImg (ImageSet.sort l) j).size :=
  pairwise_sizes_mono (sort_sizes_pairwise l)

/-- Claim C7: `ImageSet::sort` returns the same multiset of records,
ordered by size ascending and, within equal size, by creation time
ascending; hence all records of equal size are contiguous (any record
between two records of equal size has that same size). Ties in both keys
are unconstrained. -/
theorem sort_spec (l : List ImageData) :
    (ImageSet.sort l).Perm l ∧
      List.Pairwise (fun a b : ImageData =>
        a.size < b.size ∨ (a.size = b.size ∧ a.create_time ≤ b.create_time))
        (ImageSet.sort l) ∧
      (∀ i j k : Nat, i ≤ j → j ≤ k → k < (ImageSet.sort l).length →
        (getImg (ImageSet.sort l) i).size = (getImg (ImageSet.sort l) k).size →
        (getImg (ImageSet.sort l) j).size = (getImg (ImageSet.sort l) i).size) := by
  refine ⟨List.mergeSort_perm l imageLE, sort_pairwise l, ?_⟩
  intro i j k hij hjk hk hik
  have h1 := sort_sizes_mono l i j hij (by omega)
  have h2 := sort_sizes_mono l j k hjk hk
  omega

unseal List.merge List.mergeSort in
/-- Witness for C7 at a concrete list: two records of equal size in
reversed creation order plus a smaller one; the contiguity part is applied
at the equal-size pair of the sorted output. -/
theorem sort_spec_witness :
    (getImg (ImageSet.sort [⟨"a", 5, 2, "xy", none⟩, ⟨"b", 1, 2, "uv", none⟩, ⟨"c", 9, 1, "z", none⟩]) 2).size =
      (getImg (ImageSet.sort [⟨"a", 5, 2, "xy", none⟩, ⟨"b", 1, 2, "uv", none⟩, ⟨"c", 9, 1, "z", none⟩]) 1).size :=
  (sort_spec [⟨"a", 5, 2, "xy", none⟩, ⟨"b", 1, 2, "uv", none⟩, ⟨"c", 9, 1, "z", none⟩]).2.2
    1 2 2 (by decide) (by decide) (by decide) (by decide)

/-! ### Case analysis of the inner loop body -/

theorem innerBody_eq_skip {base j : Nat} {s : MarkState}
    (h : (getImg s.images j).is_duplicate = true) : innerBody base j s = s := by
  unfold innerBody
  dsimp only
  rw [if_pos h]

theorem innerBody_eq_of_ne {base j : Nat} {s : MarkState}
    (hne : base ≠ j)
    (h1 : (getImg s.images j).is_duplicate = false)
    (h2 : (getImg s.images j).hashValue ≠ (getImg s.images base).hashValue) :
    innerBody base j s =
      { s with
        images := (s.images.set j (getImg s.images j).afterHash).set base
          (getImg s.images base).afterHash,
        events := s.events ++
          (if (getImg s.images j).hashMiss then [MarkEvent.hashed j (getImg s.images j).path] else []) ++
          (if (getImg s.images base).hashMiss then [MarkEvent.hashed base (getImg s.images base).path] else []) ++
          [MarkEvent.compared base j] } := by
  have hbj : j ≠ base := fun h => hne h.symm
  unfold innerBody
  dsimp only
  rw [if_neg (by simp [h1])]
  rw [getImg_set_ne hbj]
  rw [if_neg (by simp [h2])]

theorem innerBody_eq_of_eq {base j : Nat} {s : MarkState}
    (hj : j < s.images.length) (hb : base < s.images.length)
    (hne : base ≠ j)
    (h1 : (getImg s.images j).is_duplicate = false)
    (h2 : (getImg s.images j).hashValue = (getImg s.images base).hashValue) :
    innerBody base j s =
      { s with
        images := ((s.images.set j (getImg s.images j).afterHash).set base
            (getImg s.images base).afterHash).set j
            ((getImg s.images j).afterHash.mark_duplicate),
        duplicate_count := s.duplicate_count + 1,
        duplicate_size := s.duplicate_size + (getImg s.images j).size,
        log := s.log ++
          [((getImg s.images j).path ++ "." ++ DUPLICATE_EXTENSION, (getImg s.images base).path)],
        events := s.events ++
          (if (getImg s.images j).hashMiss then [MarkEvent.hashed j (getImg s.images j).path] else []) ++
          (if (getImg s.images base).hashMiss then [MarkEvent.hashed base (getImg s.images base).path] else []) ++
          [MarkEvent.compared base j,
           MarkEvent.marked base j (getImg s.images j).path
             ((getImg s.images j).path ++ "." ++ DUPLICATE_EXTENSION)
             (getImg s.images base).path] } := by
  have hbj : j ≠ base := fun h => hne h.symm
  unfold innerBody
  dsimp only
  rw [if_neg (by simp [h1])]
  rw [getImg_set_ne hbj]
  rw [if_pos (by simp [h2])]
  rw [getImg_set_ne hne]
  rw [getImg_set_self hj]
  rw [getImg_set_ne hbj]
  rw [getImg_set_self (show base < (s.images.set j (getImg s.images j).afterHash).length by
    simpa using hb)]
  rw [getImg_set_self (show j < ((s.images.set j (getImg s.images j).afterHash).set base
      (getImg s.images base).afterHash).length by simpa using hj)]
  rfl

/-- What one inner-loop body does to the record at position `k`: leaves it
unchanged, memoizes its hash (candidate or base), or — only for a
non-duplicate candidate at `k = j` — marks it. -/
theorem innerBody_getImg {base j : Nat} {s : MarkState}
    (hj : j < s.images.length) (hb : base < s.images.length) (hne : base ≠ j)
    (k : Nat) :
    getImg (innerBody base j s).images k = getImg s.images k ∨
      getImg (innerBody base j s).images k = (getImg s.images k).afterHash ∨
      (k = j ∧ (getImg s.images j).is_duplicate = false ∧
        getImg (innerBody base j s).images k =
          (getImg s.images j).afterHash.mark_duplicate) := by
  have hbj : j ≠ base := fun h => hne h.symm
  rcases Bool.eq_false_or_eq_true (getImg s.images j).is_duplicate with hdup | hdup
  · rw [innerBody_eq_skip hdup]
    left
    rfl
  · rcases eq_or_ne ((getImg s.images j).hashValue) ((getImg s.images base).hashValue)
      with heq | hneq
    · rw [innerBody_eq_of_eq hj hb hne hdup heq]
      by_cases hkj : k = j
      · subst hkj
        right; right
        refine ⟨rfl, hdup, ?_⟩
        dsimp only
        rw [getImg_set_self (by simpa using hj)]
      · by_cases hkb : k = base
        · subst hkb
          right; left
          dsimp only
          rw [getImg_set_ne (fun h => hkj h.symm), getImg_set_self (by simpa using hb)]
        · left
          dsimp only
          rw [getImg_set_ne (fun h => hkj h.symm), getImg_set_ne (fun h => hkb h.symm),
            getImg_set_ne (fun h => hkj h.symm)]
    · rw [innerBody_eq_of_ne hne hdup hneq]
      by_cases hkb : k = base
      · subst hkb
        right; left
        dsimp only
        rw [getImg_set_self (by simpa using hb)]
      · by_cases hkj : k = j
        · subst hkj
          right; left
          dsimp only
          rw [getImg_set_ne (fun h => hkb h.symm), getImg_set_self (by simpa using hj)]
        · left
          dsimp only
          rw [getImg_set_ne (fun h => hkb h.symm), getImg_set_ne (fun h => hkj h.symm)]

/-- Generic preservation of a state predicate through the inner loop. -/
theorem innerLoop_preserve (base : Nat) (P : MarkState → Prop)
    (hstep : ∀ j s, base < j → j < s.images.length → base < s.images.length →
      (getImg s.images j).size = (getImg s.images base).size →
      P s → P (innerBody base j s)) :
    ∀ j s, base < j → base < s.images.length → P s → P (innerLoop base j s) := by
  intro j s
  induction j, s using innerLoop.induct base with
  | case1 j s h ih =>
      intro hbj hblen hp
      rw [innerLoop, if_pos h]
      refine ih (by omega) ?_ (hstep j s hbj h.1 hblen h.2 hp)
      rw [innerBody_images_length]
      exact hblen
  | case2 j s h =>
      intro hbj hblen hp
      rw [innerLoop, if_neg h]
      exact hp

/-- Generic preservation of a state predicate through the outer loop. -/
theorem outerLoop_preserve (P : MarkState → Prop)
    (hpct : ∀ base prevPct s, base < s.images.length → P s → P (pctState base prevPct s))
    (hstep : ∀ j s base, base < j → j < s.images.length → base < s.images.length →
      (getImg s.images j).size = (getImg s.images base).size →
      (getImg s.images base).is_duplicate = false → P s → P (innerBody base j s)) :
    ∀ base prevPct s, P s → P (outerLoop base prevPct s) := by
  have hb_nondup : ∀ base j s, base < j → j < s.images.length → base < s.images.length →
      (getImg s.images base).is_duplicate = false →
      (getImg (innerBody base j s).images base).is_duplicate = false := by
    intro base j s hbj hj hb hnd
    rcases innerBody_getImg hj hb (by omega) base with h | h | ⟨hkj, _, _⟩
    · rw [h]; exact hnd
    · rw [h, afterHash_is_duplicate]; exact hnd
    · omega
  intro base prevPct s
  induction base, prevPct, s using outerLoop.induct with
  | case1 base prevPct s hlt hdup ih =>
      intro hp
      rw [outerLoop, if_pos hlt, if_pos hdup]
      exact ih hp
  | case2 base prevPct s hlt hdup ih =>
      intro hp
      rw [outerLoop, if_pos hlt, if_neg hdup]
      refine ih ?_
      have hq := innerLoop_preserve base
        (fun t => P t ∧ (getImg t.images base).is_duplicate = false)
        (fun j t hbj hj hb hsz hpt =>
          ⟨hstep j t base hbj hj hb hsz hpt.2 hpt.1, hb_nondup base j t hbj hj hb hpt.2⟩)
        (base + 1) (pctState base prevPct s) (by omega)
        (by rw [pctState_images_length]; exact hlt)
        ⟨hpct base prevPct s hlt hp, ?_⟩
      · exact hq.1
      · have : (pctState base prevPct s).images = s.images := by
          unfold pctState
          dsimp only
          split_ifs <;> rfl
        rw [this]
        exact Bool.not_eq_true _ ▸ (by simpa using hdup)
  | case3 base prevPct s hlt =>
      intro hp
      rw [outerLoop, if_neg hlt]
      exact hp

theorem pctState_images (base prevPct : Nat) (s : MarkState) :
    (pctState base prevPct s).images = s.images := by
  unfold pctState
  dsimp only
  split_ifs <;> rfl

theorem pctState_events (base prevPct : Nat) (s : MarkState) :
    (pctState base prevPct s).events = s.events := by
  unfold pctState
  dsimp only
  split_ifs <;> rfl

theorem pctState_log (base prevPct : Nat) (s : MarkState) :
    (pctState base prevPct s).log = s.log := by
  unfold pctState
  dsimp only
  split_ifs <;> rfl

/-! ### Claim C3: differing sizes are never compared or marked -/

/-- Size constraint on one event, relative to the input record list:
comparisons and markings only ever link records of equal size. -/
def eventSizeOk (l : List ImageData) : MarkEvent → Prop
  | .hashed _ _ => True
  | .compared b c => (getImg l b).size = (getImg l c).size
  | .marked b c _ _ _ => (getImg l b).size = (getImg l c).size

/-- Log entry written by a marking event (`add_to_logfile`). -/
def markedLogEntry : MarkEvent → Option (String × String)
  | .marked _ _ _ n bp => some (n, bp)
  | _ => none

theorem sizeInv_step (l : List ImageData) :
    ∀ j s base, base < j → j < s.images.length → base < s.images.length →
      (getImg s.images j).size = (getImg s.images base).size →
      (getImg s.images base).is_duplicate = false →
      ((∀ k, (getImg s.images k).size = (getImg l k).size) ∧
        (∀ e ∈ s.events, eventSizeOk l e) ∧
        s.log = s.events.filterMap markedLogEntry) →
      ((∀ k, (getImg (innerBody base j s).images k).size = (getImg l k).size) ∧
        (∀ e ∈ (innerBody base j s).events, eventSizeOk l e) ∧
        (innerBody base j s).log = (innerBody base j s).events.filterMap markedLogEntry) := by
  intro j s base hbj hj hb hsz hnd hP
  obtain ⟨hsizes, hev, hlog⟩ := hP
  have hne : base ≠ j := by omega
  have hsizel : (getImg l j).size = (getImg l base).size := by
    rw [← hsizes j, ← hsizes base]
    exact hsz
  refine ⟨?_, ?_, ?_⟩
  · intro k
    rcases innerBody_getImg hj hb hne k with h | h | ⟨hk, _, h⟩
    · rw [h, hsizes k]
    · rw [h, afterHash_size, hsizes k]
    · rw [h, mark_duplicate_size, afterHash_size, hk, hsizes j]
  all_goals {
    rcases Bool.eq_false_or_eq_true (getImg s.images j).is_duplicate with hdup | hdup
    · rw [innerBody_eq_skip hdup]
      first
      | exact hev
      | exact hlog
    · rcases eq_or_ne ((getImg s.images j).hashValue) ((getImg s.images base).hashValue)
        with heq | hneq
      · rw [innerBody_eq_of_eq hj hb hne hdup heq]
        dsimp only
        first
        | · intro e he
            simp only [List.append_assoc, List.mem_append, List.mem_cons,
              List.not_mem_nil, or_false] at he
            rcases he with he | he | he | he | he
            · exact hev e he
            · split at he <;> simp_all [eventSizeOk]
            · split at he <;> simp_all [eventSizeOk]
            · subst he; exact hsizel.symm
            · subst he; exact hsizel.symm
        | · rw [hlog]
            simp only [List.append_assoc, List.filterMap_append]
            split <;> split <;> simp [markedLogEntry]
      · rw [innerBody_eq_of_ne hne hdup hneq]
        dsimp only
        first
        | · intro e he
            simp only [List.append_assoc, List.mem_append, List.mem_cons,
              List.not_mem_nil, or_false] at he
            rcases he with he | he | he | he
            · exact hev e he
            · split at he <;> simp_all [eventSizeOk]
            · split at he <;> simp_all [eventSizeOk]
            · subst he; exact hsizel.symm
        | · rw [hlog]
            simp only [List.append_assoc, List.filterMap_append]
            split <;> split <;> simp [markedLogEntry]
  }

theorem mark_duplicates_size_inv (l : List ImageData) :
    (∀ k, (getImg (ImageSet.mark_duplicates l).images k).size = (getImg l k).size) ∧
      (∀ e ∈ (ImageSet.mark_duplicates l).events, eventSizeOk l e) ∧
      (ImageSet.mark_duplicates l).log =
        (ImageSet.mark_duplicates l).events.filterMap markedLogEntry := by
  refine outerLoop_preserve
    (fun s => (∀ k, (getImg s.images k).size = (getImg l k).size) ∧
      (∀ e ∈ s.events, eventSizeOk l e) ∧
      s.log = s.events.filterMap markedLogEntry)
    ?_ (sizeInv_step l) 0 101 (initMarkState l) ?_
  · intro base prevPct s hb hP
    rw [pctState_images, pctState_events, pctState_log]
    exact hP
  · exact ⟨fun k => rfl, by simp [initMarkState], by simp [initMarkState]⟩

/-- Claim C3: during `mark_duplicates`, two records whose sizes differ are
never compared by hash, and neither is marked (renamed or logged) as a
duplicate of the other — every rename and every log line comes from a
`marked` event, and those only link equal-size records. -/
theorem mark_duplicates_never_links_different_sizes (l : List ImageData)
    (i j : Nat) (hij : (getImg l i).size ≠ (getImg l j).size) :
    (∀ e ∈ (ImageSet.mark_duplicates l).events,
      e ≠ MarkEvent.compared i j ∧ e ≠ MarkEvent.compared j i ∧
      ∀ o n bp, e ≠ MarkEvent.marked i j o n bp ∧ e ≠ MarkEvent.marked j i o n bp) ∧
    (ImageSet.mark_duplicates l).log =
      (ImageSet.mark_duplicates l).events.filterMap markedLogEntry := by
  obtain ⟨hsz, hev, hlog⟩ := mark_duplicates_size_inv l
  refine ⟨?_, hlog⟩
  intro e he
  have hok := hev e he
  refine ⟨?_, ?_, ?_⟩
  · intro hcon
    subst hcon
    exact hij hok
  · intro hcon
    subst hcon
    exact hij hok.symm
  · intro o n bp
    constructor
    · intro hcon
      subst hcon
      exact hij hok
    · intro hcon
      subst hcon
      exact hij hok.symm

unseal innerLoop outerLoop in
/-- Witness for C3 at a concrete run with sizes 1, 1, 2. -/
theorem mark_duplicates_never_links_different_sizes_witness :
    (getImg [⟨"d/a", 0, 1, "x", none⟩, ⟨"d/b", 0, 1, "y", none⟩, ⟨"d/c", 0, 2, "zz", none⟩] 0).size ≠
        (getImg [⟨"d/a", 0, 1, "x", none⟩, ⟨"d/b", 0, 1, "y", none⟩, ⟨"d/c", 0, 2, "zz", none⟩] 2).size ∧
      ((∀ e ∈ (ImageSet.mark_duplicates
          [⟨"d/a", 0, 1, "x", none⟩, ⟨"d/b", 0, 1, "y", none⟩, ⟨"d/c", 0, 2, "zz", none⟩]).events,
        e ≠ MarkEvent.compared 0 2 ∧ e ≠ MarkEvent.compared 2 0 ∧
        ∀ o n bp, e ≠ MarkEvent.marked 0 2 o n bp ∧ e ≠ MarkEvent.marked 2 0 o n bp) ∧
      (ImageSet.mark_duplicates
          [⟨"d/a", 0, 1, "x", none⟩, ⟨"d/b", 0, 1, "y", none⟩, ⟨"d/c", 0, 2, "zz", none⟩]).log =
        (ImageSet.mark_duplicates
          [⟨"d/a", 0, 1, "x", none⟩, ⟨"d/b", 0, 1, "y", none⟩, ⟨"d/c", 0, 2, "zz", none⟩]).events.filterMap
          markedLogEntry) :=
  ⟨by decide,
    mark_duplicates_never_links_different_sizes
      [⟨"d/a", 0, 1, "x", none⟩, ⟨"d/b", 0, 1, "y", none⟩, ⟨"d/c", 0, 2, "zz", none⟩]
      0 2 (by decide)⟩

/-! ### Sentinel-carrying paths are never hashed or renamed (for C4) -/

/-- Path constraint on one event: hash computations and renames only ever
touch paths that do not carry the sentinel extension. -/
def eventPathOk : MarkEvent → Prop
  | .hashed _ p => pathIsDuplicate p = false
  | .compared _ _ => True
  | .marked _ _ o _ _ => pathIsDuplicate o = false

theorem pathInv_step :
    ∀ j s base, base < j → j < s.images.length → base < s.images.length →
      (getImg s.images j).size = (getImg s.images base).size →
      (getImg s.images base).is_duplicate = false →
      (∀ e ∈ s.events, eventPathOk e) →
      (∀ e ∈ (innerBody base j s).events, eventPathOk e) := by
  intro j s base hbj hj hb hsz hnd hev
  have hne : base ≠ j := by omega
  rcases Bool.eq_false_or_eq_true (getImg s.images j).is_duplicate with hdup | hdup
  · rw [innerBody_eq_skip hdup]
    exact hev
  · have hcand : pathIsDuplicate (getImg s.images j).path = false := hdup
    have hbse : pathIsDuplicate (getImg s.images base).path = false := hnd
    rcases eq_or_ne ((getImg s.images j).hashValue) ((getImg s.images base).hashValue)
      with heq | hneq
    · rw [innerBody_eq_of_eq hj hb hne hdup heq]
      dsimp only
      intro e he
      simp only [List.append_assoc, List.mem_append, List.mem_cons,
        List.not_mem_nil, or_false] at he
      rcases he with he | he | he | he | he
      · exact hev e he
      · split at he <;> simp_all [eventPathOk]
      · split at he <;> simp_all [eventPathOk]
      · subst he; trivial
      · subst he; exact hcand
    · rw [innerBody_eq_of_ne hne hdup hneq]
      dsimp only
      intro e he
      simp only [List.append_assoc, List.mem_append, List.mem_cons,
        List.not_mem_nil, or_false] at he
      rcases he with he | he | he | he
      · exact hev e he
      · split at he <;> simp_all [eventPathOk]
      · split at he <;> simp_all [eventPathOk]
      · subst he; trivial

theorem mark_duplicates_paths_ok (l : List ImageData) :
    ∀ e ∈ (ImageSet.mark_duplicates l).events, eventPathOk e := by
  refine outerLoop_preserve (fun s => ∀ e ∈ s.events, eventPathOk e)
    ?_ pathInv_step 0 101 (initMarkState l) ?_
  · intro base prevPct s hb hP
    rw [pctState_events]
    exact hP
  · simp [initMarkState]

/-! ### Traversal analysis: visited files, pruning, and exclusion -/

mutual

/-- Every file record the traversal would visit (same pruning of hidden
directories), before the sentinel-extension exclusion of `ImageSet::new`. -/
def visitedFiles (t : FsTree) (path : String) (depth : Nat) : List ImageData :=
  match t with
  | .file _ content createTime modTime => [mkImageData path content createTime modTime]
  | .dir name children =>
      if isHiddenName name ∧ 0 < depth then []
      else visitedChildren children path (depth + 1)
termination_by sizeOf t

/-- Visited records of a directory's children. -/
def visitedChildren (ts : List FsTree) (dirPath : String) (d : Nat) : List ImageData :=
  match ts with
  | [] => []
  | t :: rest =>
      visitedFiles t (dirPath ++ "/" ++ t.name) d ++ visitedChildren rest dirPath d
termination_by sizeOf ts

end

theorem walkEntry_visited (t : FsTree) (path : String) (depth : Nat) :
    (walkEntry t path depth).images =
      (visitedFiles t path depth).filter (fun i => !i.is_duplicate) ∧
    (walkEntry t path depth).dupCount =
      (visitedFiles t path depth).countP (fun i => i.is_duplicate) := by
  refine walkEntry.induct
    (fun t path depth =>
      (walkEntry t path depth).images =
        (visitedFiles t path depth).filter (fun i => !i.is_duplicate) ∧
      (walkEntry t path depth).dupCount =
        (visitedFiles t path depth).countP (fun i => i.is_duplicate))
    (fun ts dirPath d =>
      (walkChildren ts dirPath d).images =
        (visitedChildren ts dirPath d).filter (fun i => !i.is_duplicate) ∧
      (walkChildren ts dirPath d).dupCount =
        (visitedChildren ts dirPath d).countP (fun i => i.is_duplicate))
    ?_ ?_ ?_ ?_ ?_ ?_ t path depth
  · intro path1 depth1 n1 c1 ct1 mt1 img hdup
    rw [walkEntry, visitedFiles]
    rw [if_pos hdup]
    simp [hdup, List.countP_cons]
  · intro path1 depth1 n1 c1 ct1 mt1 img hdup
    rw [walkEntry, visitedFiles]
    rw [if_neg hdup]
    simp only [Bool.not_eq_true] at hdup
    simp [hdup, List.countP_cons]
  · intro path1 depth1 n1 children hcond
    rw [walkEntry, visitedFiles]
    rw [if_pos hcond, if_pos hcond]
    simp
  · intro path1 depth1 n1 children hcond ih
    rw [walkEntry, visitedFiles]
    rw [if_neg hcond, if_neg hcond]
    exact ih
  · intro dirPath d
    rw [walkChildren, visitedChildren]
    simp
  · intro dirPath d t1 rest ih1 ih2
    rw [walkChildren, visitedChildren]
    dsimp only [WalkResult.append]
    rw [List.filter_append, List.countP_append]
    rw [ih1.1, ih1.2, ih2.1, ih2.2]
    exact ⟨rfl, rfl⟩

/-- Well-formedness of an entry name as a file system provides it: not
empty and without a path separator. -/
def goodName (s : String) : Bool :=
  decide (s.data ≠ []) && s.data.all (fun c => c ≠ '/')

mutual

/-- All entry names below (and including) this entry are well-formed file
system names. -/
def FsTree.wfNames : FsTree → Bool
  | .file n _ _ _ => goodName n
  | .dir n children => goodName n && FsTree.wfList children
termination_by t => sizeOf t

/-- List version of `FsTree.wfNames`. -/
def FsTree.wfList : List FsTree → Bool
  | [] => true
  | t :: rest => t.wfNames && FsTree.wfList rest
termination_by ts => sizeOf ts

end

theorem goodName_spec {s : String} (h : goodName s = true) :
    s.data ≠ [] ∧ '/' ∉ s.data := by
  unfold goodName at h
  simp only [Bool.and_eq_true, decide_eq_true_eq, List.all_eq_true,
    decide_eq_true_eq] at h
  exact ⟨h.1, fun hmem => h.2 '/' hmem rfl⟩

theorem lastComponent_join (p n : String) (h : '/' ∉ n.data) :
    lastComponent (p ++ "/" ++ n).data = n.data := by
  have hdata : (p ++ "/" ++ n).data = p.data ++ '/' :: n.data := by
    rw [String.data_append, String.data_append, List.append_assoc]
    rfl
  rw [hdata]
  unfold lastComponent
  exact afterLast_append h

theorem wfNames_name {t : FsTree} (h : t.wfNames = true) : goodName t.name = true := by
  cases t with
  | file n c ct mt =>
      rw [FsTree.wfNames] at h
      exact h
  | dir n children =>
      rw [FsTree.wfNames] at h
      exact (Bool.and_eq_true _ _ |>.mp h).1

/-- Facts about every visited record: the hash cache starts empty and,
under well-formed names, the path's file name is nonempty. -/
theorem visitedFiles_records (t : FsTree) (path : String) (depth : Nat) :
    ∀ i ∈ visitedFiles t path depth,
      i.hash = none ∧
      (t.wfNames = true → lastComponent path.data ≠ [] →
        lastComponent i.path.data ≠ []) := by
  refine walkEntry.induct
    (fun t path depth => ∀ i ∈ visitedFiles t path depth,
      i.hash = none ∧
      (t.wfNames = true → lastComponent path.data ≠ [] →
        lastComponent i.path.data ≠ []))
    (fun ts dirPath d => ∀ i ∈ visitedChildren ts dirPath d,
      i.hash = none ∧
      (FsTree.wfList ts = true → lastComponent i.path.data ≠ []))
    ?_ ?_ ?_ ?_ ?_ ?_ t path depth
  · intro path1 depth1 n1 c1 ct1 mt1 img hdup i hi
    rw [visitedFiles] at hi
    simp only [List.mem_singleton] at hi
    subst hi
    exact ⟨rfl, fun _ hp => hp⟩
  · intro path1 depth1 n1 c1 ct1 mt1 img hdup i hi
    rw [visitedFiles] at hi
    simp only [List.mem_singleton] at hi
    subst hi
    exact ⟨rfl, fun _ hp => hp⟩
  · intro path1 depth1 n1 children hcond i hi
    rw [visitedFiles, if_pos hcond] at hi
    simp at hi
  · intro path1 depth1 n1 children hcond ih i hi
    rw [visitedFiles, if_neg hcond] at hi
    refine ⟨(ih i hi).1, fun hwf _ => ?_⟩
    rw [FsTree.wfNames] at hwf
    exact (ih i hi).2 (Bool.and_eq_true _ _ |>.mp hwf).2
  · intro dirPath d i hi
    rw [visitedChildren] at hi
    simp at hi
  · intro dirPath d t1 rest ih1 ih2 i hi
    rw [visitedChildren] at hi
    rw [List.mem_append] at hi
    rcases hi with hi | hi
    · refine ⟨(ih1 i hi).1, fun hwf => ?_⟩
      rw [FsTree.wfList] at hwf
      have hw := (Bool.and_eq_true _ _ |>.mp hwf).1
      have hgood := goodName_spec (wfNames_name hw)
      refine (ih1 i hi).2 hw ?_
      rw [lastComponent_join _ _ hgood.2]
      exact hgood.1
    · refine ⟨(ih2 i hi).1, fun hwf => ?_⟩
      rw [FsTree.wfList] at hwf
      exact (ih2 i hi).2 (Bool.and_eq_true _ _ |>.mp hwf).2

theorem WalkResult.append_assoc (a b c : WalkResult) :
    (a.append b).append c = a.append (b.append c) := by
  cases a
  cases b
  cases c
  simp [WalkResult.append]
  omega

theorem walkChildren_append (as bs : List FsTree) (p : String) (d : Nat) :
    walkChildren (as ++ bs) p d =
      (walkChildren as p d).append (walkChildren bs p d) := by
  induction as with
  | nil =>
      rw [List.nil_append, walkChildren]
      cases hw : walkChildren bs p d
      simp [WalkResult.append]
  | cons t rest ih =>
      rw [List.cons_append, walkChildren, walkChildren, ih, WalkResult.append_assoc]

/-! ### Claim C10: only hidden directories are pruned, not hidden files -/

/-- Claim C10: a hidden directory at positive depth is pruned entirely,
while a file entry is never tested for hiddenness: any file child of a
non-pruned directory is discovered (provided its path does not already
carry the sentinel extension), even when its name starts with a dot. -/
theorem traversal_hidden_policy :
    (∀ (name : String) (children : List FsTree) (p : String) (d : Nat),
      isHiddenName name = true → 0 < d →
      walkEntry (FsTree.dir name children) p d = ⟨[], 0, []⟩) ∧
    (∀ (dirName : String) (children : List FsTree) (p : String) (d : Nat)
        (fn content : String) (ct : Option Int) (mt : Int),
      ¬(isHiddenName dirName = true ∧ 0 < d) →
      FsTree.file fn content ct mt ∈ children →
      (mkImageData (p ++ "/" ++ fn) content ct mt).is_duplicate = false →
      mkImageData (p ++ "/" ++ fn) content ct mt ∈
        (walkEntry (FsTree.dir dirName children) p d).images) := by
  constructor
  · intro name children p d h1 h2
    rw [walkEntry, if_pos ⟨h1, h2⟩]
  · intro dirName children p d fn content ct mt hcond hmem hnd
    rw [walkEntry, if_neg hcond]
    obtain ⟨pre, post, hchil⟩ := List.append_of_mem hmem
    subst hchil
    rw [walkChildren_append, walkChildren]
    have hname : (FsTree.file fn content ct mt).name = fn := rfl
    rw [hname]
    rw [walkEntry]
    rw [if_neg (by rw [hnd]; simp)]
    simp [WalkResult.append]

/-- Witness for C10: a hidden directory is pruned; a hidden file `.hidden`
in a non-hidden directory is discovered. -/
theorem traversal_hidden_policy_witness :
    walkEntry (FsTree.dir ".git" [FsTree.file "x" "X" none 1] ) "/r/.git" 1 = ⟨[], 0, []⟩ ∧
      mkImageData ("/r" ++ "/" ++ ".hidden") "X" none 1 ∈
        (walkEntry (FsTree.dir "photos" [FsTree.file ".hidden" "X" none 1] ) "/r" 0).images :=
  ⟨traversal_hidden_policy.1 ".git" [FsTree.file "x" "X" none 1] "/r/.git" 1
      (by decide) (by decide),
    traversal_hidden_policy.2 "photos" [FsTree.file ".hidden" "X" none 1] "/r" 0
      ".hidden" "X" none 1 (by decide) (List.mem_singleton.mpr rfl) (by decide)⟩

/-! ### Claim C4: sentinel files are excluded, tallied, never hashed, never renamed -/

/-- Claim C4: discovery excludes every file whose path already carries the
sentinel extension from the returned record sequence (the returned records
are exactly the visited non-sentinel files), tallies it in the
pre-existing duplicate count instead, and later `mark_duplicates` never
computes a hash of (nor renames) any path carrying the sentinel
extension. -/
theorem discovery_excludes_sentinel_files :
    (∀ (t : FsTree) (p : String) (d : Nat),
      (∀ i ∈ (walkEntry t p d).images, i.is_duplicate = false) ∧
      (walkEntry t p d).images =
        (visitedFiles t p d).filter (fun i => !i.is_duplicate) ∧
      (walkEntry t p d).dupCount =
        (visitedFiles t p d).countP (fun i => i.is_duplicate)) ∧
    (∀ (l : List ImageData), ∀ e ∈ (ImageSet.mark_duplicates l).events,
      (∀ k q, e = MarkEvent.hashed k q → pathIsDuplicate q = false) ∧
      (∀ b c o n bp, e = MarkEvent.marked b c o n bp → pathIsDuplicate o = false)) := by
  constructor
  · intro t p d
    obtain ⟨h1, h2⟩ := walkEntry_visited t p d
    refine ⟨?_, h1, h2⟩
    intro i hi
    rw [h1] at hi
    have := List.of_mem_filter hi
    simpa using this
  · intro l e he
    have hok := mark_duplicates_paths_ok l e he
    constructor
    · intro k q hq
      subst hq
      exact hok
    · intro b c o n bp hq
      subst hq
      exact hok

unseal walkEntry walkChildren visitedFiles visitedChildren innerLoop outerLoop in
/-- Witness for C4: a tree containing `old.jpg.duplicate` (excluded and
tallied) and a run of `mark_duplicates` with a real hash event. -/
theorem discovery_excludes_sentinel_files_witness :
    ((∀ i ∈ (walkEntry (FsTree.dir "r" [FsTree.file "old.jpg.duplicate" "Z" none 1,
        FsTree.file "a.jpg" "X" none 1] ) "r" 0).images, i.is_duplicate = false) ∧
      (walkEntry (FsTree.dir "r" [FsTree.file "old.jpg.duplicate" "Z" none 1,
        FsTree.file "a.jpg" "X" none 1] ) "r" 0).images =
        (visitedFiles (FsTree.dir "r" [FsTree.file "old.jpg.duplicate" "Z" none 1,
          FsTree.file "a.jpg" "X" none 1] ) "r" 0).filter (fun i => !i.is_duplicate) ∧
      (walkEntry (FsTree.dir "r" [FsTree.file "old.jpg.duplicate" "Z" none 1,
        FsTree.file "a.jpg" "X" none 1] ) "r" 0).dupCount =
        (visitedFiles (FsTree.dir "r" [FsTree.file "old.jpg.duplicate" "Z" none 1,
          FsTree.file "a.jpg" "X" none 1] ) "r" 0).countP (fun i => i.is_duplicate)) ∧
    (∀ e ∈ (ImageSet.mark_duplicates [⟨"r/a", 0, 1, "x", none⟩, ⟨"r/b", 0, 1, "x", none⟩]).events,
      (∀ k q, e = MarkEvent.hashed k q → pathIsDuplicate q = false) ∧
      (∀ b c o n bp, e = MarkEvent.marked b c o n bp → pathIsDuplicate o = false)) :=
  ⟨discovery_excludes_sentinel_files.1 (FsTree.dir "r" [FsTree.file "old.jpg.duplicate" "Z" none 1,
      FsTree.file "a.jpg" "X" none 1] ) "r" 0,
    discovery_excludes_sentinel_files.2 [⟨"r/a", 0, 1, "x", none⟩, ⟨"r/b", 0, 1, "x", none⟩]⟩

/-! ### Claim C5: a marked record stays marked and is skipped afterwards -/

/-- Whether an event touches the record at index `k`, as base or as
candidate. -/
def MarkEvent.involves : MarkEvent → Nat → Prop
  | .hashed i _, k => i = k
  | .compared b c, k => b = k ∨ c = k
  | .marked b c _ _ _, k => b = k ∨ c = k

/-- The record at index `c` has been marked duplicate somewhere in the
event list. -/
def markedCand (evs : List MarkEvent) (c : Nat) : Prop :=
  ∃ b o n bp, MarkEvent.marked b c o n bp ∈ evs

/-- Temporal skip property of an event list: after any point at which a
record has been marked, no later event touches that record. -/
def splitOk (evs : List MarkEvent) : Prop :=
  ∀ pre post, evs = pre ++ post → ∀ c, markedCand pre c →
    ∀ e ∈ post, ¬ e.involves c

theorem splitOk_of_no_marked {Δ : List MarkEvent}
    (h : ∀ b c o n bp, MarkEvent.marked b c o n bp ∉ Δ) : splitOk Δ := by
  intro pre post hsplit c hmc e hepost
  obtain ⟨b, o, n, bp, hm⟩ := hmc
  exact absurd (hsplit ▸ List.mem_append_left post hm) (h b c o n bp)

theorem splitOk_snoc {A : List MarkEvent} {m : MarkEvent}
    (hA : ∀ b c o n bp, MarkEvent.marked b c o n bp ∉ A) : splitOk (A ++ [m]) := by
  intro pre post hsplit c hmc e hepost
  rcases List.append_eq_append_iff.mp hsplit.symm with ⟨a1, ha1, ha2⟩ | ⟨c1, hc1, hc2⟩
  · obtain ⟨b, o, n, bp, hm⟩ := hmc
    exact absurd (ha1.symm ▸ List.mem_append_left a1 hm) (hA b c o n bp)
  · cases c1 with
    | nil =>
        obtain ⟨b, o, n, bp, hm⟩ := hmc
        rw [hc1] at hm
        simp only [List.append_nil] at hm
        exact absurd hm (hA b c o n bp)
    | cons x xs =>
        have h2 := (List.cons.inj hc2).2
        have hpost : post = [] := (List.append_eq_nil.mp h2.symm).2
        rw [hpost] at hepost
        simp at hepost

theorem splitOk_append {evs Δ : List MarkEvent} (h1 : splitOk evs)
    (h2 : ∀ c, markedCand evs c → ∀ e ∈ Δ, ¬ e.involves c)
    (h3 : splitOk Δ) : splitOk (evs ++ Δ) := by
  intro pre post hsplit c hmc e hepost
  rcases List.append_eq_append_iff.mp hsplit.symm with ⟨a1, ha1, ha2⟩ | ⟨c1, hc1, hc2⟩
  · rw [ha2] at hepost
    rcases List.mem_append.mp hepost with he | he
    · exact h1 pre a1 ha1 c hmc e he
    · obtain ⟨b, o, n, bp, hm⟩ := hmc
      have hmev : MarkEvent.marked b c o n bp ∈ evs := ha1.symm ▸ List.mem_append_left a1 hm
      exact h2 c ⟨b, o, n, bp, hmev⟩ e he
  · obtain ⟨b, o, n, bp, hm⟩ := hmc
    rw [hc1] at hm
    rcases List.mem_append.mp hm with hm | hm
    · exact h2 c ⟨b, o, n, bp, hm⟩ e (hc2.symm ▸ List.mem_append_right c1 hepost)
    · exact h3 c1 post hc2 c ⟨b, o, n, bp, hm⟩ e hepost

/-- Invariant for claim C5, relative to the input list `l`: file names
stay nonempty, duplicate status only ever grows, every record marked in
the event history is currently a duplicate, and after a marking no later
event touches the marked record. -/
def C5Inv (l : List ImageData) (s : MarkState) : Prop :=
  (∀ k, k < s.images.length → lastComponent (getImg s.images k).path.data ≠ []) ∧
  (∀ k, (getImg l k).is_duplicate = true →
    (getImg s.images k).is_duplicate = true) ∧
  (∀ c, markedCand s.events c → (getImg s.images c).is_duplicate = true) ∧
  splitOk s.events

theorem c5_step (l : List ImageData) :
    ∀ j s base, base < j → j < s.images.length → base < s.images.length →
      (getImg s.images j).size = (getImg s.images base).size →
      (getImg s.images base).is_duplicate = false →
      C5Inv l s → C5Inv l (innerBody base j s) := by
  intro j s base hbj hj hb hsz hnd hP
  obtain ⟨hwf, hmono, hmarked, hsplit⟩ := hP
  have hne : base ≠ j := by omega
  rcases Bool.eq_false_or_eq_true (getImg s.images j).is_duplicate with hdup | hdup
  · rw [innerBody_eq_skip hdup]
    exact ⟨hwf, hmono, hmarked, hsplit⟩
  · have hgetcases := innerBody_getImg hj hb hne
    have hdup_new : ∀ k, (getImg s.images k).is_duplicate = true →
        (getImg (innerBody base j s).images k).is_duplicate = true := by
      intro k hk
      rcases hgetcases k with h | h | ⟨hkj, hjd, h⟩
      · rw [h]; exact hk
      · rw [h, afterHash_is_duplicate]; exact hk
      · subst hkj
        rw [hjd] at hk
        exact absurd hk (by simp)
    have hwf_new : ∀ k, k < (innerBody base j s).images.length →
        lastComponent (getImg (innerBody base j s).images k).path.data ≠ [] := by
      intro k hk
      rw [innerBody_images_length] at hk
      rcases hgetcases k with h | h | ⟨hkj, hjd, h⟩
      · rw [h]; exact hwf k hk
      · rw [h, afterHash_path]; exact hwf k hk
      · rw [h, mark_duplicate_path, afterHash_path, lastComponent_mark]
        simp
    have hjmark_dup : (getImg s.images j).afterHash.mark_duplicate.is_duplicate = true := by
      unfold ImageData.is_duplicate
      rw [mark_duplicate_path, afterHash_path]
      exact pathIsDuplicate_mark (hwf j hj)
    have hmemC : ∀ e ∈ (if (getImg s.images j).hashMiss then
        [MarkEvent.hashed j (getImg s.images j).path] else []),
        e = MarkEvent.hashed j (getImg s.images j).path := by
      split <;> simp
    have hmemB : ∀ e ∈ (if (getImg s.images base).hashMiss then
        [MarkEvent.hashed base (getImg s.images base).path] else []),
        e = MarkEvent.hashed base (getImg s.images base).path := by
      split <;> simp
    have hcross : ∀ c, markedCand s.events c →
        c ≠ j ∧ c ≠ base := by
      intro c hmc
      have hcd := hmarked c hmc
      constructor
      · intro h
        rw [h, hdup] at hcd
        simp at hcd
      · intro h
        rw [h, hnd] at hcd
        simp at hcd
    refine ⟨hwf_new, fun k hk => hdup_new k (hmono k hk), ?_, ?_⟩
    · -- every record marked in the history is currently duplicate
      intro c hmc
      obtain ⟨b, o, n, bp, hm⟩ := hmc
      rcases eq_or_ne ((getImg s.images j).hashValue) ((getImg s.images base).hashValue)
        with heq | hneq
      · rw [innerBody_eq_of_eq hj hb hne hdup heq] at hm ⊢
        dsimp only at hm ⊢
        simp only [List.append_assoc, List.mem_append, List.mem_cons,
          List.not_mem_nil, or_false] at hm
        rcases hm with hm | hm | hm | hm | hm
        · have hcd := hdup_new c (hmarked c ⟨b, o, n, bp, hm⟩)
          rw [innerBody_eq_of_eq hj hb hne hdup heq] at hcd
          exact hcd
        · exact absurd (hmemC _ hm) (by simp)
        · exact absurd (hmemB _ hm) (by simp)
        · exact absurd hm (by simp)
        · simp only [MarkEvent.marked.injEq] at hm
          obtain ⟨hm1, hcj, hm3⟩ := hm
          subst hcj
          rw [getImg_set_self (by simpa using hj)]
          exact hjmark_dup
      · rw [innerBody_eq_of_ne hne hdup hneq] at hm ⊢
        dsimp only at hm ⊢
        simp only [List.append_assoc, List.mem_append, List.mem_cons,
          List.not_mem_nil, or_false] at hm
        rcases hm with hm | hm | hm | hm
        · have hcd := hdup_new c (hmarked c ⟨b, o, n, bp, hm⟩)
          rw [innerBody_eq_of_ne hne hdup hneq] at hcd
          exact hcd
        · exact absurd (hmemC _ hm) (by simp)
        · exact absurd (hmemB _ hm) (by simp)
        · exact absurd hm (by simp)
    · -- the temporal skip property
      rcases eq_or_ne ((getImg s.images j).hashValue) ((getImg s.images base).hashValue)
        with heq | hneq
      · rw [innerBody_eq_of_eq hj hb hne hdup heq]
        dsimp only
        have hassoc :
            ((s.events ++
              (if (getImg s.images j).hashMiss then
                [MarkEvent.hashed j (getImg s.images j).path] else [])) ++
              (if (getImg s.images base).hashMiss then
                [MarkEvent.hashed base (getImg s.images base).path] else [])) ++
              [MarkEvent.compared base j,
               MarkEvent.marked base j (getImg s.images j).path
                 ((getImg s.images j).path ++ "." ++ DUPLICATE_EXTENSION)
                 (getImg s.images base).path] =
            s.events ++
              (((if (getImg s.images j).hashMiss then
                  [MarkEvent.hashed j (getImg s.images j).path] else []) ++
                (if (getImg s.images base).hashMiss then
                  [MarkEvent.hashed base (getImg s.images base).path] else []) ++
                [MarkEvent.compared base j]) ++
               [MarkEvent.marked base j (getImg s.images j).path
                 ((getImg s.images j).path ++ "." ++ DUPLICATE_EXTENSION)
                 (getImg s.images base).path]) := by
          simp [List.append_assoc]
        rw [hassoc]
        refine splitOk_append hsplit ?_ (splitOk_snoc ?_)
        · intro c hmc e he
          obtain ⟨hcj, hcb⟩ := hcross c hmc
          simp only [List.mem_append, List.mem_cons, List.not_mem_nil, or_false] at he
          rcases he with ((he | he) | he) | he
          · rw [hmemC _ he]
            simp [MarkEvent.involves]
            omega
          · rw [hmemB _ he]
            simp [MarkEvent.involves]
            omega
          · subst he
            simp [MarkEvent.involves]
            omega
          · subst he
            simp [MarkEvent.involves]
            omega
        · intro b c o n bp hm
          simp only [List.mem_append, List.mem_cons, List.not_mem_nil, or_false] at hm
          rcases hm with (hm | hm) | hm
          · exact absurd (hmemC _ hm) (by simp)
          · exact absurd (hmemB _ hm) (by simp)
          · exact absurd hm (by simp)
      · rw [innerBody_eq_of_ne hne hdup hneq]
        dsimp only
        have hassoc :
            ((s.events ++
              (if (getImg s.images j).hashMiss then
                [MarkEvent.hashed j (getImg s.images j).path] else [])) ++
              (if (getImg s.images base).hashMiss then
                [MarkEvent.hashed base (getImg s.images base).path] else [])) ++
              [MarkEvent.compared base j] =
            s.events ++
              ((if (getImg s.images j).hashMiss then
                  [MarkEvent.hashed j (getImg s.images j).path] else []) ++
                (if (getImg s.images base).hashMiss then
                  [MarkEvent.hashed base (getImg s.images base).path] else []) ++
                [MarkEvent.compared base j]) := by
          simp [List.append_assoc]
        rw [hassoc]
        refine splitOk_append hsplit ?_ (splitOk_of_no_marked ?_)
        · intro c hmc e he
          obtain ⟨hcj, hcb⟩ := hcross c hmc
          simp only [List.mem_append, List.mem_cons, List.not_mem_nil, or_false] at he
          rcases he with (he | he) | he
          · rw [hmemC _ he]
            simp [MarkEvent.involves]
            omega
          · rw [hmemB _ he]
            simp [MarkEvent.involves]
            omega
          · subst he
            simp [MarkEvent.involves]
            omega
        · intro b c o n bp hm
          simp only [List.mem_append, List.mem_cons, List.not_mem_nil, or_false] at hm
          rcases hm with (hm | hm) | hm
          · exact absurd (hmemC _ hm) (by simp)
          · exact absurd (hmemB _ hm) (by simp)
          · exact absurd hm (by simp)

/-- Claim C5: once a record is marked duplicate it stays duplicate — the
input duplicates are never unmarked, every record marked during the run is
duplicate in the final state, and after any marking event no later event
(hash, comparison, or marking, as base or candidate) touches that record.
The hypothesis asks that every record's file name be nonempty, which
discovery guarantees for real file systems. -/
theorem mark_duplicates_once_marked (l : List ImageData)
    (hwf : ∀ k, k < l.length → lastComponent (getImg l k).path.data ≠ []) :
    (∀ k, (getImg l k).is_duplicate = true →
      (getImg (ImageSet.mark_duplicates l).images k).is_duplicate = true) ∧
    (∀ c, markedCand (ImageSet.mark_duplicates l).events c →
      (getImg (ImageSet.mark_duplicates l).images c).is_duplicate = true) ∧
    splitOk (ImageSet.mark_duplicates l).events := by
  have hinv : C5Inv l (ImageSet.mark_duplicates l) := by
    refine outerLoop_preserve (C5Inv l) ?_ (c5_step l) 0 101 (initMarkState l) ?_
    · intro base prevPct s hb hP
      obtain ⟨h1, h2, h3, h4⟩ := hP
      refine ⟨?_, ?_, ?_, ?_⟩ <;>
        simp only [pctState_images, pctState_images_length, pctState_events] <;>
        assumption
    · refine ⟨hwf, fun k hk => hk, ?_, ?_⟩
      · intro c hmc
        obtain ⟨b, o, n, bp, hm⟩ := hmc
        simp [initMarkState] at hm
      · refine splitOk_of_no_marked ?_
        intro b c o n bp hm
        simp [initMarkState] at hm
  exact ⟨hinv.2.1, hinv.2.2.1, hinv.2.2.2⟩

/-- Witness for C5 at a run marking one duplicate. -/
theorem mark_duplicates_once_marked_witness :
    (∀ k, k < ([⟨"d/a.jpg", 0, 1, "x", none⟩, ⟨"d/b.jpg", 0, 1, "x", none⟩] :
        List ImageData).length →
      lastComponent (getImg [⟨"d/a.jpg", 0, 1, "x", none⟩, ⟨"d/b.jpg", 0, 1, "x", none⟩] k).path.data ≠ []) ∧
    ((∀ k, (getImg [⟨"d/a.jpg", 0, 1, "x", none⟩, ⟨"d/b.jpg", 0, 1, "x", none⟩] k).is_duplicate = true →
      (getImg (ImageSet.mark_duplicates
        [⟨"d/a.jpg", 0, 1, "x", none⟩, ⟨"d/b.jpg", 0, 1, "x", none⟩]).images k).is_duplicate = true) ∧
    (∀ c, markedCand (ImageSet.mark_duplicates
        [⟨"d/a.jpg", 0, 1, "x", none⟩, ⟨"d/b.jpg", 0, 1, "x", none⟩]).events c →
      (getImg (ImageSet.mark_duplicates
        [⟨"d/a.jpg", 0, 1, "x", none⟩, ⟨"d/b.jpg", 0, 1, "x", none⟩]).images c).is_duplicate = true) ∧
    splitOk (ImageSet.mark_duplicates
        [⟨"d/a.jpg", 0, 1, "x", none⟩, ⟨"d/b.jpg", 0, 1, "x", none⟩]).events) :=
  ⟨by decide,
    mark_duplicates_once_marked
      [⟨"d/a.jpg", 0, 1, "x", none⟩, ⟨"d/b.jpg", 0, 1, "x", none⟩] (by decide)⟩

/-! ### Group structure of equal-size, equal-content records (for C1 and C8) -/

/-- Records at positions `i` and `j` of `l` have identical size and
identical content. -/
def sameB (l : List ImageData) (i j : Nat) : Bool :=
  (getImg l i).size == (getImg l j).size &&
    (getImg l i).content == (getImg l j).content

/-- Position `k` has an identical-size, identical-content predecessor
below position `b`. -/
def dupAtB (l : List ImageData) (b k : Nat) : Bool :=
  (List.range b).any (fun i => decide (i < k) && sameB l i k)

/-- Duplicate predicate while the inner scan of base `b` has processed
candidates below `j`. -/
def dupInB (l : List ImageData) (b j k : Nat) : Bool :=
  dupAtB l b k || (decide (b < k) && decide (k < j) && sameB l b k)

/-- First position at or after `m` (up to `k`) with the same size and
content as position `k`. -/
def gheadFrom (l : List ImageData) (k m : Nat) : Nat :=
  if m < k then (if sameB l m k then m else gheadFrom l k (m + 1)) else k
termination_by k - m

/-- First position of `k`'s group: the least `i ≤ k` with the same size
and content as `k` (the group's base file). -/
def ghead (l : List ImageData) (k : Nat) : Nat :=
  gheadFrom l k 0

theorem sameB_iff {l : List ImageData} {i j : Nat} :
    sameB l i j = true ↔
      (getImg l i).size = (getImg l j).size ∧
        (getImg l i).content = (getImg l j).content := by
  unfold sameB
  simp

theorem sameB_refl (l : List ImageData) (k : Nat) : sameB l k k = true := by
  rw [sameB_iff]
  exact ⟨rfl, rfl⟩

theorem sameB_symm {l : List ImageData} {i j : Nat} (h : sameB l i j = true) :
    sameB l j i = true := by
  rw [sameB_iff] at h ⊢
  exact ⟨h.1.symm, h.2.symm⟩

theorem sameB_trans {l : List ImageData} {i j k : Nat} (h1 : sameB l i j = true)
    (h2 : sameB l j k = true) : sameB l i k = true := by
  rw [sameB_iff] at h1 h2 ⊢
  exact ⟨h1.1.trans h2.1, h1.2.trans h2.2⟩

theorem dupAtB_iff {l : List ImageData} {b k : Nat} :
    dupAtB l b k = true ↔ ∃ i, i < b ∧ i < k ∧ sameB l i k = true := by
  unfold dupAtB
  rw [List.any_eq_true]
  constructor
  · rintro ⟨i, hi, hcond⟩
    rw [List.mem_range] at hi
    simp only [Bool.and_eq_true, decide_eq_true_eq] at hcond
    exact ⟨i, hi, hcond.1, hcond.2⟩
  · rintro ⟨i, hib, hik, hs⟩
    exact ⟨i, List.mem_range.mpr hib, by simp [hik, hs]⟩

theorem dupAtB_succ (l : List ImageData) (b k : Nat) :
    dupAtB l (b + 1) k = (dupAtB l b k || (decide (b < k) && sameB l b k)) := by
  unfold dupAtB
  rw [List.range_succ, List.any_append]
  simp

theorem dupInB_eq_dupAtB (l : List ImageData) (b k : Nat) :
    dupInB l b (b + 1) k = dupAtB l b k := by
  unfold dupInB
  rcases Nat.lt_or_ge b k with h | h
  · have : ¬k < b + 1 := by omega
    simp [this]
  · have : ¬b < k := by omega
    simp [this]

theorem gheadFrom_le (l : List ImageData) (k : Nat) :
    ∀ m, gheadFrom l k m ≤ k := by
  intro m
  induction m using gheadFrom.induct l k with
  | case1 m hm hs => rw [gheadFrom, if_pos hm, if_pos hs]; omega
  | case2 m hm hs ih => rw [gheadFrom, if_pos hm, if_neg hs]; exact ih
  | case3 m hm => rw [gheadFrom, if_neg hm]

theorem gheadFrom_eq {l : List ImageData} {k b : Nat} :
    ∀ m, m ≤ b → b ≤ k → sameB l b k = true →
      (∀ i, m ≤ i → i < b → sameB l i k = false) → gheadFrom l k m = b := by
  intro m
  induction m using gheadFrom.induct l k with
  | case1 m hm hs =>
      intro hmb hbk hsame hmin
      rw [gheadFrom, if_pos hm, if_pos hs]
      by_contra hne
      have hlt : m < b := by omega
      rw [hmin m (le_refl m) hlt] at hs
      exact absurd hs (by simp)
  | case2 m hm hs ih =>
      intro hmb hbk hsame hmin
      rw [gheadFrom, if_pos hm, if_neg hs]
      have hmb2 : m + 1 ≤ b := by
        rcases Nat.eq_or_lt_of_le hmb with h | h
        · subst h
          exact absurd hsame hs
        · omega
      exact ih hmb2 hbk hsame (fun i h1 h2 => hmin i (by omega) h2)
  | case3 m hm =>
      intro hmb hbk hsame hmin
      rw [gheadFrom, if_neg hm]
      omega

theorem ghead_eq {l : List ImageData} {k b : Nat} (hbk : b ≤ k)
    (hsame : sameB l b k = true)
    (hmin : ∀ i, i < b → sameB l i k = false) : ghead l k = b :=
  gheadFrom_eq 0 (Nat.zero_le b) hbk hsame (fun i _ h2 => hmin i h2)

theorem ghead_spec (l : List ImageData) (k : Nat) :
    ghead l k ≤ k ∧ sameB l (ghead l k) k = true ∧
      (∀ i, i < ghead l k → sameB l i k = false) := by
  have haux : ∀ m, m ≤ k →
      gheadFrom l k m ≤ k ∧ sameB l (gheadFrom l k m) k = true ∧
        (∀ i, m ≤ i → i < gheadFrom l k m → sameB l i k = false) := by
    intro m
    induction m using gheadFrom.induct l k with
    | case1 m hm hs =>
        intro hmk
        rw [gheadFrom, if_pos hm, if_pos hs]
        exact ⟨by omega, hs, fun i h1 h2 => by omega⟩
    | case2 m hm hs ih =>
        intro hmk
        rw [gheadFrom, if_pos hm, if_neg hs]
        obtain ⟨ih1, ih2, ih3⟩ := ih (by omega)
        refine ⟨ih1, ih2, ?_⟩
        intro i h1 h2
        rcases Nat.eq_or_lt_of_le h1 with h | h
        · subst h
          simpa using hs
        · exact ih3 i (by omega) h2
    | case3 m hm =>
        intro hmk
        rw [gheadFrom, if_neg hm]
        exact ⟨le_refl k, sameB_refl l k, fun i h1 h2 => by omega⟩
  unfold ghead
  obtain ⟨h1, h2, h3⟩ := haux 0 (Nat.zero_le k)
  exact ⟨h1, h2, fun i hi => h3 i (Nat.zero_le i) hi⟩

/-- Master invariant of `mark_duplicates`, relative to the input list `l`
and a duplicate predicate `D` on positions: lengths and immutable fields
are preserved, the hash cache is empty or correct, a record is duplicate
exactly when `D` holds, paths are original or original plus sentinel
according to `D`, and every `D`-position has its log line (renamed path,
group head's path). -/
structure MInv (l : List ImageData) (D : Nat → Bool) (st : MarkState) : Prop where
  len : st.images.length = l.length
  size_eq : ∀ k, (getImg st.images k).size = (getImg l k).size
  content_eq : ∀ k, (getImg st.images k).content = (getImg l k).content
  hash_ok : ∀ k, (getImg st.images k).hash = none ∨
    (getImg st.images k).hash = some (sha256Hex (getImg l k).content)
  dup_iff : ∀ k, k < l.length → ((getImg st.images k).is_duplicate = true ↔ D k = true)
  path_eq : ∀ k, k < l.length → (getImg st.images k).path =
    (if D k then (getImg l k).path ++ "." ++ DUPLICATE_EXTENSION else (getImg l k).path)
  log_has : ∀ k, k < l.length → D k = true →
    ((getImg l k).path ++ "." ++ DUPLICATE_EXTENSION, (getImg l (ghead l k)).path) ∈ st.log

theorem MInv.hashValue_eq {l : List ImageData} {D : Nat → Bool} {st : MarkState}
    (inv : MInv l D st) (k : Nat) :
    (getImg st.images k).hashValue = (getImg l k).content := by
  rcases inv.hash_ok k with h | h
  · unfold ImageData.hashValue
    rw [h]
    unfold sha256Hex
    exact inv.content_eq k
  · unfold ImageData.hashValue
    rw [h]
    rfl

theorem MInv.congrD {l : List ImageData} {D D' : Nat → Bool} {st : MarkState}
    (inv : MInv l D st) (h : ∀ k, k < l.length → D k = D' k) : MInv l D' st := by
  refine ⟨inv.len, inv.size_eq, inv.content_eq, inv.hash_ok, ?_, ?_, ?_⟩
  · intro k hk
    rw [← h k hk]
    exact inv.dup_iff k hk
  · intro k hk
    rw [← h k hk]
    exact inv.path_eq k hk
  · intro k hk hd
    rw [← h k hk] at hd
    exact inv.log_has k hk hd

theorem MInv.pct {l : List ImageData} {D : Nat → Bool} {s : MarkState}
    (inv : MInv l D s) (base prevPct : Nat) : MInv l D (pctState base prevPct s) := by
  refine ⟨?_, ?_, ?_, ?_, ?_, ?_, ?_⟩ <;>
    simp only [pctState_images, pctState_images_length, pctState_log] <;>
    first
      | exact inv.len
      | exact inv.size_eq
      | exact inv.content_eq
      | exact inv.hash_ok
      | exact inv.dup_iff
      | exact inv.path_eq
      | exact inv.log_has

theorem dupInB_self (l : List ImageData) (b j : Nat) :
    dupInB l b j j = dupAtB l b j := by
  unfold dupInB
  simp

theorem dupInB_base (l : List ImageData) (b j : Nat) :
    dupInB l b j b = dupAtB l b b := by
  unfold dupInB
  simp

theorem dupInB_succ_ne {l : List ImageData} {b j k : Nat} (h : k ≠ j) :
    dupInB l b (j + 1) k = dupInB l b j k := by
  unfold dupInB
  have : decide (k < j + 1) = decide (k < j) := decide_eq_decide.mpr (by omega)
  rw [this]

theorem dupInB_succ_self (l : List ImageData) (b j : Nat) :
    dupInB l b (j + 1) j = (dupAtB l b j || (decide (b < j) && sameB l b j)) := by
  unfold dupInB
  simp

theorem minv_inner_step (l : List ImageData)
    (hwf : ∀ k, k < l.length → lastComponent (getImg l k).path.data ≠ [])
    (b j : Nat) (s : MarkState) (hbj : b < j)
    (hj : j < s.images.length) (hb : b < s.images.length)
    (hsz : (getImg s.images j).size = (getImg s.images b).size)
    (hbd : dupAtB l b b = false)
    (inv : MInv l (dupInB l b j) s) :
    MInv l (dupInB l b (j + 1)) (innerBody b j s) := by
  have hne : b ≠ j := by omega
  have hjn : j < l.length := inv.len ▸ hj
  have hbn : b < l.length := inv.len ▸ hb
  have hDb : dupInB l b j b = false := by rw [dupInB_base]; exact hbd
  have hnds : (getImg s.images b).is_duplicate = false := by
    rcases (Bool.eq_false_or_eq_true (getImg s.images b).is_duplicate).symm with h | h
    · exact h
    · rw [(inv.dup_iff b hbn).mp h] at hDb
      simp at hDb
  have hszl : (getImg l j).size = (getImg l b).size := by
    rw [← inv.size_eq j, ← inv.size_eq b]
    exact hsz
  rcases (Bool.eq_false_or_eq_true (getImg s.images j).is_duplicate).symm with hdup | hdup
  · -- candidate not yet a duplicate
    have hDj : dupAtB l b j = false := by
      rcases (Bool.eq_false_or_eq_true (dupAtB l b j)).symm with h | h
      · exact h
      · rw [(inv.dup_iff j hjn).mpr (by rw [dupInB_self]; exact h)] at hdup
        simp at hdup
    have hpj : (getImg s.images j).path = (getImg l j).path := by
      rw [inv.path_eq j hjn, dupInB_self, hDj]
      simp
    have hpb : (getImg s.images b).path = (getImg l b).path := by
      rw [inv.path_eq b hbn, hDb]
      simp
    have hvj := inv.hashValue_eq j
    have hvb := inv.hashValue_eq b
    rcases eq_or_ne ((getImg s.images j).hashValue) ((getImg s.images b).hashValue)
      with heq | hneq
    · -- contents match: the candidate gets marked
      have hctl : (getImg l j).content = (getImg l b).content := by
        rw [← hvj, ← hvb]
        exact heq
      have hsame : sameB l b j = true := by
        rw [sameB_iff]
        exact ⟨hszl.symm, hctl.symm⟩
      have hgh : ghead l j = b := by
        refine ghead_eq (by omega) hsame ?_
        intro i hib
        rcases (Bool.eq_false_or_eq_true (sameB l i j)).symm with h | h
        · exact h
        · have hsib : sameB l i b = true := sameB_trans h (sameB_symm hsame)
          rw [dupAtB_iff.mpr ⟨i, hib, hib, hsib⟩] at hbd
          simp at hbd
      have hDsj : dupInB l b (j + 1) j = true := by
        rw [dupInB_succ_self, hDj, hsame]
        simp
        omega
      rw [innerBody_eq_of_eq hj hb hne hdup heq]
      have hlen1 : j < ((s.images.set j (getImg s.images j).afterHash).set b
          (getImg s.images b).afterHash).length := by simpa using hj
      have hlen2 : b < (s.images.set j (getImg s.images j).afterHash).length := by
        simpa using hb
      have hgetj : getImg (((s.images.set j (getImg s.images j).afterHash).set b
          (getImg s.images b).afterHash).set j (getImg s.images j).afterHash.mark_duplicate) j =
          (getImg s.images j).afterHash.mark_duplicate := getImg_set_self (by simpa using hj)
      have hgetb : getImg (((s.images.set j (getImg s.images j).afterHash).set b
          (getImg s.images b).afterHash).set j (getImg s.images j).afterHash.mark_duplicate) b =
          (getImg s.images b).afterHash := by
        rw [getImg_set_ne (Ne.symm hne), getImg_set_self hlen2]
      have hgetk : ∀ k, k ≠ j → k ≠ b →
          getImg (((s.images.set j (getImg s.images j).afterHash).set b
            (getImg s.images b).afterHash).set j (getImg s.images j).afterHash.mark_duplicate) k =
          getImg s.images k := by
        intro k hkj hkb
        rw [getImg_set_ne (fun h => hkj h.symm), getImg_set_ne (fun h => hkb h.symm),
          getImg_set_ne (fun h => hkj h.symm)]
      refine ⟨by simpa using inv.len, ?_, ?_, ?_, ?_, ?_, ?_⟩
      · intro k
        by_cases hkj : k = j
        · subst hkj
          rw [hgetj, mark_duplicate_size, afterHash_size]
          exact inv.size_eq k
        · by_cases hkb : k = b
          · subst hkb
            rw [hgetb, afterHash_size]
            exact inv.size_eq k
          · rw [hgetk k hkj hkb]
            exact inv.size_eq k
      · intro k
        by_cases hkj : k = j
        · subst hkj
          rw [hgetj, mark_duplicate_content, afterHash_content]
          exact inv.content_eq k
        · by_cases hkb : k = b
          · subst hkb
            rw [hgetb, afterHash_content]
            exact inv.content_eq k
          · rw [hgetk k hkj hkb]
            exact inv.content_eq k
      · intro k
        by_cases hkj : k = j
        · subst hkj
          rw [hgetj, mark_duplicate_hash]
          right
          show some (getImg s.images k).hashValue = _
          rw [hvj]
          rfl
        · by_cases hkb : k = b
          · subst hkb
            rw [hgetb]
            right
            show some (getImg s.images k).hashValue = _
            rw [hvb]
            rfl
          · rw [hgetk k hkj hkb]
            exact inv.hash_ok k
      · intro k hk
        by_cases hkj : k = j
        · subst hkj
          rw [hgetj, hDsj]
          simp only [iff_true]
          unfold ImageData.is_duplicate
          rw [mark_duplicate_path, afterHash_path, hpj]
          exact pathIsDuplicate_mark (hwf k hk)
        · by_cases hkb : k = b
          · subst hkb
            rw [hgetb, afterHash_is_duplicate, dupInB_succ_ne hkj, hnds, hDb]
          · rw [hgetk k hkj hkb, dupInB_succ_ne hkj]
            exact inv.dup_iff k hk
      · intro k hk
        by_cases hkj : k = j
        · subst hkj
          rw [hgetj, hDsj, mark_duplicate_path, afterHash_path, hpj]
          simp
        · by_cases hkb : k = b
          · subst hkb
            rw [hgetb, afterHash_path, dupInB_succ_ne hkj]
            exact inv.path_eq k hk
          · rw [hgetk k hkj hkb, dupInB_succ_ne hkj]
            exact inv.path_eq k hk
      · intro k hk hd
        by_cases hkj : k = j
        · subst hkj
          rw [List.mem_append]
          right
          rw [hgh, hpj, hpb]
          simp
        · rw [dupInB_succ_ne hkj] at hd
          exact List.mem_append_left _ (inv.log_has k hk hd)
    · -- contents differ: only the hash caches change
      have hctl : (getImg l j).content ≠ (getImg l b).content := by
        rw [← hvj, ← hvb]
        exact hneq
      have hsame : sameB l b j = false := by
        rcases (Bool.eq_false_or_eq_true (sameB l b j)).symm with h | h
        · exact h
        · rw [sameB_iff] at h
          exact absurd h.2.symm hctl
      have hDsj : dupInB l b (j + 1) j = false := by
        rw [dupInB_succ_self, hDj, hsame]
        simp
      rw [innerBody_eq_of_ne hne hdup hneq]
      have hlen2 : b < (s.images.set j (getImg s.images j).afterHash).length := by
        simpa using hb
      have hgetj : getImg ((s.images.set j (getImg s.images j).afterHash).set b
          (getImg s.images b).afterHash) j = (getImg s.images j).afterHash := by
        rw [getImg_set_ne hne, getImg_set_self hj]
      have hgetb : getImg ((s.images.set j (getImg s.images j).afterHash).set b
          (getImg s.images b).afterHash) b = (getImg s.images b).afterHash :=
        getImg_set_self hlen2
      have hgetk : ∀ k, k ≠ j → k ≠ b →
          getImg ((s.images.set j (getImg s.images j).afterHash).set b
            (getImg s.images b).afterHash) k = getImg s.images k := by
        intro k hkj hkb
        rw [getImg_set_ne (fun h => hkb h.symm), getImg_set_ne (fun h => hkj h.symm)]
      refine ⟨by simpa using inv.len, ?_, ?_, ?_, ?_, ?_, ?_⟩
      · intro k
        by_cases hkj : k = j
        · subst hkj; rw [hgetj, afterHash_size]; exact inv.size_eq k
        · by_cases hkb : k = b
          · subst hkb; rw [hgetb, afterHash_size]; exact inv.size_eq k
          · rw [hgetk k hkj hkb]; exact inv.size_eq k
      · intro k
        by_cases hkj : k = j
        · subst hkj; rw [hgetj, afterHash_content]; exact inv.content_eq k
        · by_cases hkb : k = b
          · subst hkb; rw [hgetb, afterHash_content]; exact inv.content_eq k
          · rw [hgetk k hkj hkb]; exact inv.content_eq k
      · intro k
        by_cases hkj : k = j
        · subst hkj
          rw [hgetj]
          right
          show some (getImg s.images k).hashValue = _
          rw [hvj]
          rfl
        · by_cases hkb : k = b
          · subst hkb
            rw [hgetb]
            right
            show some (getImg s.images k).hashValue = _
            rw [hvb]
            rfl
          · rw [hgetk k hkj hkb]; exact inv.hash_ok k
      · intro k hk
        by_cases hkj : k = j
        · subst hkj
          rw [hgetj, afterHash_is_duplicate, hdup, hDsj]
        · by_cases hkb : k = b
          · subst hkb
            rw [hgetb, afterHash_is_duplicate, dupInB_succ_ne hkj, hnds, hDb]
          · rw [hgetk k hkj hkb, dupInB_succ_ne hkj]
            exact inv.dup_iff k hk
      · intro k hk
        by_cases hkj : k = j
        · subst hkj
          rw [hgetj, afterHash_path, hDsj, hpj]
          simp
        · by_cases hkb : k = b
          · subst hkb
            rw [hgetb, afterHash_path, dupInB_succ_ne hkj]
            exact inv.path_eq k hk
          · rw [hgetk k hkj hkb, dupInB_succ_ne hkj]
            exact inv.path_eq k hk
      · intro k hk hd
        by_cases hkj : k = j
        · subst hkj
          rw [hDsj] at hd
          simp at hd
        · rw [dupInB_succ_ne hkj] at hd
          exact inv.log_has k hk hd
  · -- candidate already a duplicate: nothing happens
    rw [innerBody_eq_skip hdup]
    have hDj : dupAtB l b j = true := by
      have := (inv.dup_iff j hjn).mp hdup
      rw [dupInB_self] at this
      exact this
    refine inv.congrD ?_
    intro k hk
    by_cases hkj : k = j
    · subst hkj
      rw [dupInB_self, dupInB_succ_self, hDj]
      simp
    · rw [dupInB_succ_ne hkj]

theorem bool_eq_of_iff {a b : Bool} (h : (a = true) ↔ (b = true)) : a = b := by
  cases a <;> cases b <;> simp_all

theorem minv_inner_loop (l : List ImageData)
    (hwf : ∀ k, k < l.length → lastComponent (getImg l k).path.data ≠ [])
    (hsort : ∀ i j, i ≤ j → j < l.length → (getImg l i).size ≤ (getImg l j).size)
    (b : Nat) (hbd : dupAtB l b b = false) :
    ∀ j s, b < j → b < s.images.length → MInv l (dupInB l b j) s →
      MInv l (dupAtB l (b + 1)) (innerLoop b j s) := by
  intro j s
  induction j, s using innerLoop.induct b with
  | case1 j s h ih =>
      intro hbj hb inv
      rw [innerLoop, if_pos h]
      refine ih (by omega) (by rw [innerBody_images_length]; exact hb) ?_
      exact minv_inner_step l hwf b j s hbj h.1 hb h.2 hbd inv
  | case2 j s h =>
      intro hbj hb inv
      rw [innerLoop, if_neg h]
      refine inv.congrD ?_
      intro k hk
      rw [dupAtB_succ]
      unfold dupInB
      by_cases hbk : b < k
      · rcases (Bool.eq_false_or_eq_true (sameB l b k)).symm with hsm | hsm
        · rw [hsm]
          simp
        · have hkj : k < j := by
            rcases Nat.lt_or_ge j s.images.length with hjlen | hjlen
            · have hszne : (getImg s.images j).size ≠ (getImg s.images b).size :=
                fun hc => h ⟨hjlen, hc⟩
              rw [inv.size_eq j, inv.size_eq b] at hszne
              by_contra hkj
              have hjn : j < l.length := inv.len ▸ hjlen
              have h1 : (getImg l b).size ≤ (getImg l j).size := hsort b j (by omega) hjn
              have h2 : (getImg l j).size ≤ (getImg l k).size := hsort j k (by omega) hk
              have h3 : (getImg l b).size = (getImg l k).size := (sameB_iff.mp hsm).1
              omega
            · have := inv.len
              omega
          simp [hbk, hsm, hkj]
      · simp [hbk]

theorem minv_outer (l : List ImageData)
    (hwf : ∀ k, k < l.length → lastComponent (getImg l k).path.data ≠ [])
    (hsort : ∀ i j, i ≤ j → j < l.length → (getImg l i).size ≤ (getImg l j).size) :
    ∀ base prevPct s, MInv l (dupAtB l base) s →
      MInv l (fun k => dupAtB l k k) (outerLoop base prevPct s) := by
  intro base prevPct s
  induction base, prevPct, s using outerLoop.induct with
  | case1 base prevPct s hlt hdup ih =>
      intro inv
      rw [outerLoop, if_pos hlt, if_pos hdup]
      refine ih (inv.congrD ?_)
      intro k hk
      rw [dupAtB_succ]
      have hDbb : dupAtB l base base = true := (inv.dup_iff base (inv.len ▸ hlt)).mp hdup
      rcases (Bool.eq_false_or_eq_true (dupAtB l base k)).symm with hD | hD
      · rw [hD, Bool.false_or]
        symm
        by_cases hbk : base < k
        · rcases (Bool.eq_false_or_eq_true (sameB l base k)).symm with hsm | hsm
          · rw [hsm]
            simp
          · obtain ⟨i, hi1, hi2, hsi⟩ := dupAtB_iff.mp hDbb
            have : dupAtB l base k = true :=
              dupAtB_iff.mpr ⟨i, hi1, by omega, sameB_trans hsi hsm⟩
            rw [this] at hD
            exact absurd hD (by simp)
        · simp [hbk]
      · rw [hD]
        simp
  | case2 base prevPct s hlt hdup ih =>
      intro inv
      rw [outerLoop, if_pos hlt, if_neg hdup]
      have hbn : base < l.length := inv.len ▸ hlt
      have hfd : (getImg s.images base).is_duplicate = false := by
        simpa using hdup
      have hbd : dupAtB l base base = false := by
        rcases (Bool.eq_false_or_eq_true (dupAtB l base base)).symm with hD | hD
        · exact hD
        · rw [(inv.dup_iff base hbn).mpr hD] at hfd
          simp at hfd
      refine ih ?_
      refine minv_inner_loop l hwf hsort base hbd (base + 1) (pctState base prevPct s)
        (by omega) (by rw [pctState_images_length]; exact hlt) ?_
      refine (inv.pct base prevPct).congrD ?_
      intro k hk
      exact (dupInB_eq_dupAtB l base k).symm
  | case3 base prevPct s hlt =>
      intro inv
      rw [outerLoop, if_neg hlt]
      refine inv.congrD ?_
      intro k hk
      have hbase : l.length ≤ base := by
        have := inv.len
        omega
      refine bool_eq_of_iff ?_
      rw [dupAtB_iff, dupAtB_iff]
      constructor
      · rintro ⟨i, h1, h2, h3⟩
        exact ⟨i, h2, h2, h3⟩
      · rintro ⟨i, h1, h2, h3⟩
        exact ⟨i, by omega, h2, h3⟩

/-- Characterisation of a complete `mark_duplicates` run on a clean,
size-sorted record list: a record ends up duplicate exactly when an
earlier record has the same size and content, paths change exactly by the
sentinel suffix on those records, and every such record has a log line
pairing its renamed path with the path of its group's first record. -/
theorem mark_characterization (l : List ImageData)
    (hclean : ∀ k, k < l.length → (getImg l k).is_duplicate = false)
    (hwf : ∀ k, k < l.length → lastComponent (getImg l k).path.data ≠ [])
    (hsort : ∀ i j, i ≤ j → j < l.length → (getImg l i).size ≤ (getImg l j).size)
    (hhash : ∀ k, (getImg l k).hash = none) :
    MInv l (fun k => dupAtB l k k) (ImageSet.mark_duplicates l) := by
  refine minv_outer l hwf hsort 0 101 (initMarkState l) ?_
  have hD0 : ∀ k, dupAtB l 0 k = false := fun k => rfl
  refine ⟨rfl, fun k => rfl, fun k => rfl, fun k => Or.inl (hhash k), ?_, ?_, ?_⟩
  · intro k hk
    show (getImg l k).is_duplicate = true ↔ _
    rw [hclean k hk, hD0 k]
  · intro k hk
    show (getImg l k).path = _
    rw [hD0 k]
    simp
  · intro k hk hd
    rw [hD0 k] at hd
    exact absurd hd (by simp)

theorem visitedChildren_records (ts : List FsTree) (dirPath : String) (d : Nat) :
    ∀ i ∈ visitedChildren ts dirPath d,
      i.hash = none ∧ (FsTree.wfList ts = true → lastComponent i.path.data ≠ []) := by
  refine walkChildren.induct
    (fun t path depth => ∀ i ∈ visitedFiles t path depth,
      i.hash = none ∧
      (t.wfNames = true → lastComponent path.data ≠ [] →
        lastComponent i.path.data ≠ []))
    (fun ts dirPath d => ∀ i ∈ visitedChildren ts dirPath d,
      i.hash = none ∧ (FsTree.wfList ts = true → lastComponent i.path.data ≠ []))
    ?_ ?_ ?_ ?_ ?_ ?_ ts dirPath d
  · intro path1 depth1 n1 c1 ct1 mt1 img hdup i hi
    rw [visitedFiles] at hi
    simp only [List.mem_singleton] at hi
    subst hi
    exact ⟨rfl, fun _ hp => hp⟩
  · intro path1 depth1 n1 c1 ct1 mt1 img hdup i hi
    rw [visitedFiles] at hi
    simp only [List.mem_singleton] at hi
    subst hi
    exact ⟨rfl, fun _ hp => hp⟩
  · intro path1 depth1 n1 children hcond i hi
    rw [visitedFiles, if_pos hcond] at hi
    simp at hi
  · intro path1 depth1 n1 children hcond ih i hi
    rw [visitedFiles, if_neg hcond] at hi
    refine ⟨(ih i hi).1, fun hwf _ => ?_⟩
    rw [FsTree.wfNames] at hwf
    exact (ih i hi).2 (Bool.and_eq_true _ _ |>.mp hwf).2
  · intro dirPath1 d1 i hi
    rw [visitedChildren] at hi
    simp at hi
  · intro dirPath1 d1 t1 rest ih1 ih2 i hi
    rw [visitedChildren] at hi
    rw [List.mem_append] at hi
    rcases hi with hi | hi
    · refine ⟨(ih1 i hi).1, fun hwf => ?_⟩
      rw [FsTree.wfList] at hwf
      have hw := (Bool.and_eq_true _ _ |>.mp hwf).1
      have hgood := goodName_spec (wfNames_name hw)
      refine (ih1 i hi).2 hw ?_
      rw [lastComponent_join _ _ hgood.2]
      exact hgood.1
    · refine ⟨(ih2 i hi).1, fun hwf => ?_⟩
      rw [FsTree.wfList] at hwf
      exact (ih2 i hi).2 (Bool.and_eq_true _ _ |>.mp hwf).2

/-- Record list of the sorted discovery output, the state `main` passes to
`mark_duplicates` (after `ImageSet::new` and `ImageSet::sort`). -/
def sortedImages (root : FsTree) : List ImageData :=
  ImageSet.sort (walkEntry root root.name 0).images

/-- Full pipeline of `main` on an existing root: discovery, grouping sort,
duplicate marking. -/
def mainPipeline (root : FsTree) : MarkState :=
  ImageSet.mark_duplicates (sortedImages root)

theorem getImg_mem {l : List ImageData} {k : Nat} (h : k < l.length) :
    getImg l k ∈ l := by
  rw [getImg_eq_get h]
  exact List.get_mem l _ _

theorem sortedImages_facts (rootName : String) (children : List FsTree)
    (hwfn : FsTree.wfList children = true) :
    (∀ k, k < (sortedImages (FsTree.dir rootName children)).length →
      (getImg (sortedImages (FsTree.dir rootName children)) k).is_duplicate = false) ∧
    (∀ k, k < (sortedImages (FsTree.dir rootName children)).length →
      lastComponent (getImg (sortedImages (FsTree.dir rootName children)) k).path.data ≠ []) ∧
    (∀ k, (getImg (sortedImages (FsTree.dir rootName children)) k).hash = none) := by
  have hmem : ∀ i ∈ sortedImages (FsTree.dir rootName children),
      i.is_duplicate = false ∧ i.hash = none ∧ lastComponent i.path.data ≠ [] := by
    intro i hi
    have hwalk : i ∈ (walkEntry (FsTree.dir rootName children)
        (FsTree.dir rootName children).name 0).images := by
      have hperm := List.mergeSort_perm (walkEntry (FsTree.dir rootName children)
        (FsTree.dir rootName children).name 0).images imageLE
      exact hperm.mem_iff.mp hi
    have hchar := (walkEntry_visited (FsTree.dir rootName children)
      (FsTree.dir rootName children).name 0).1
    rw [hchar] at hwalk
    have hnd : i.is_duplicate = false := by
      have := List.of_mem_filter hwalk
      simpa using this
    have hvis : i ∈ visitedFiles (FsTree.dir rootName children)
        (FsTree.dir rootName children).name 0 := List.mem_of_mem_filter hwalk
    rw [visitedFiles, if_neg (by simp)] at hvis
    have hrec := visitedChildren_records children
      (FsTree.dir rootName children).name 1 i hvis
    exact ⟨hnd, hrec.1, hrec.2 hwfn⟩
  refine ⟨?_, ?_, ?_⟩
  · intro k hk
    exact (hmem _ (getImg_mem hk)).1
  · intro k hk
    exact (hmem _ (getImg_mem hk)).2.2
  · intro k
    rcases Nat.lt_or_ge k (sortedImages (FsTree.dir rootName children)).length with hk | hk
    · exact (hmem _ (getImg_mem hk)).2.1
    · rw [getImg_of_ge hk]
      rfl


/-! ### Claim C1: groups of identical files under the full pipeline -/

theorem walk_three_identical :
    (walkEntry (FsTree.dir "/photos" [FsTree.file "a.txt" "X" (some 1) 5,
      FsTree.file "b.txt" "X" (some 2) 6, FsTree.file "c.txt" "X" (some 3) 7] )
      (FsTree.name (FsTree.dir "/photos" [FsTree.file "a.txt" "X" (some 1) 5,
        FsTree.file "b.txt" "X" (some 2) 6, FsTree.file "c.txt" "X" (some 3) 7] )) 0).images =
    [⟨"/photos/a.txt", 1, 1, "X", none⟩, ⟨"/photos/b.txt", 2, 1, "X", none⟩,
      ⟨"/photos/c.txt", 3, 1, "X", none⟩] := by
  show (walkEntry _ "/photos" 0).images = _
  rw [walkEntry]
  rw [if_neg (by decide)]
  rw [walkChildren, walkEntry]
  rw [if_neg (by decide)]
  rw [walkChildren, walkEntry]
  rw [if_neg (by decide)]
  rw [walkChildren, walkEntry]
  rw [if_neg (by decide)]
  rw [walkChildren]
  simp [WalkResult.append, mkImageData, get_create_time, FsTree.name]
  refine ⟨rfl, ?_⟩
  rw [if_neg (by decide)]
  rfl

unseal List.merge List.mergeSort in
theorem sorted_three_identical :
    sortedImages (FsTree.dir "/photos" [FsTree.file "a.txt" "X" (some 1) 5,
      FsTree.file "b.txt" "X" (some 2) 6, FsTree.file "c.txt" "X" (some 3) 7] ) =
    [⟨"/photos/a.txt", 1, 1, "X", none⟩, ⟨"/photos/b.txt", 2, 1, "X", none⟩,
      ⟨"/photos/c.txt", 3, 1, "X", none⟩] := by
  unfold sortedImages
  rw [walk_three_identical]
  decide

theorem main_three_identical :
    mainPipeline (FsTree.dir "/photos" [FsTree.file "a.txt" "X" (some 1) 5,
      FsTree.file "b.txt" "X" (some 2) 6, FsTree.file "c.txt" "X" (some 3) 7] ) =
    ImageSet.mark_duplicates [⟨"/photos/a.txt", 1, 1, "X", none⟩,
      ⟨"/photos/b.txt", 2, 1, "X", none⟩, ⟨"/photos/c.txt", 3, 1, "X", none⟩] := by
  unfold mainPipeline
  rw [sorted_three_identical]

unseal innerLoop outerLoop in
/-- Counterexample to C1 as stated: with three identical files `a.txt`,
`b.txt`, `c.txt`, the second and third discovered files have identical
size and content, yet after the full pipeline NEITHER of them retains its
original name (both are renamed and marked duplicates of `a.txt`, not of
each other), refuting "exactly one of them retains its original name and
the other has been renamed ... and marked duplicate of the first". -/
theorem pipeline_pair_counterexample :
    (getImg (sortedImages (FsTree.dir "/photos" [FsTree.file "a.txt" "X" (some 1) 5,
        FsTree.file "b.txt" "X" (some 2) 6, FsTree.file "c.txt" "X" (some 3) 7] )) 1).size =
      (getImg (sortedImages (FsTree.dir "/photos" [FsTree.file "a.txt" "X" (some 1) 5,
        FsTree.file "b.txt" "X" (some 2) 6, FsTree.file "c.txt" "X" (some 3) 7] )) 2).size ∧
    (getImg (sortedImages (FsTree.dir "/photos" [FsTree.file "a.txt" "X" (some 1) 5,
        FsTree.file "b.txt" "X" (some 2) 6, FsTree.file "c.txt" "X" (some 3) 7] )) 1).content =
      (getImg (sortedImages (FsTree.dir "/photos" [FsTree.file "a.txt" "X" (some 1) 5,
        FsTree.file "b.txt" "X" (some 2) 6, FsTree.file "c.txt" "X" (some 3) 7] )) 2).content ∧
    (getImg (mainPipeline (FsTree.dir "/photos" [FsTree.file "a.txt" "X" (some 1) 5,
        FsTree.file "b.txt" "X" (some 2) 6, FsTree.file "c.txt" "X" (some 3) 7] )).images 1).path ≠
      (getImg (sortedImages (FsTree.dir "/photos" [FsTree.file "a.txt" "X" (some 1) 5,
        FsTree.file "b.txt" "X" (some 2) 6, FsTree.file "c.txt" "X" (some 3) 7] )) 1).path ∧
    (getImg (mainPipeline (FsTree.dir "/photos" [FsTree.file "a.txt" "X" (some 1) 5,
        FsTree.file "b.txt" "X" (some 2) 6, FsTree.file "c.txt" "X" (some 3) 7] )).images 2).path ≠
      (getImg (sortedImages (FsTree.dir "/photos" [FsTree.file "a.txt" "X" (some 1) 5,
        FsTree.file "b.txt" "X" (some 2) 6, FsTree.file "c.txt" "X" (some 3) 7] )) 2).path := by
  rw [main_three_identical, sorted_three_identical]
  decide

/-- Claim C1 (amended): for every discovered file set (a well-named tree),
after the full pipeline a record is duplicate exactly when some earlier
record of the sorted sequence has its size and content; a record without
such a predecessor keeps its original path; and every duplicate record is
renamed with the sentinel extension and logged as a duplicate of its
group head — the FIRST record with that size and content — which itself
keeps its original name. (With three or more identical files, all but the
group head are renamed, so "exactly one of the two retains its name" fails
for the later pairs; see the counterexample.) -/
theorem pipeline_duplicate_groups (rootName : String) (children : List FsTree)
    (hwfn : FsTree.wfList children = true) (j : Nat)
    (hj : j < (sortedImages (FsTree.dir rootName children)).length) :
    ((getImg (mainPipeline (FsTree.dir rootName children)).images j).is_duplicate = true ↔
      dupAtB (sortedImages (FsTree.dir rootName children)) j j = true) ∧
    (dupAtB (sortedImages (FsTree.dir rootName children)) j j = false →
      (getImg (mainPipeline (FsTree.dir rootName children)).images j).path =
        (getImg (sortedImages (FsTree.dir rootName children)) j).path) ∧
    (dupAtB (sortedImages (FsTree.dir rootName children)) j j = true →
      (getImg (mainPipeline (FsTree.dir rootName children)).images j).path =
        (getImg (sortedImages (FsTree.dir rootName children)) j).path ++ "." ++
          DUPLICATE_EXTENSION ∧
      sameB (sortedImages (FsTree.dir rootName children))
        (ghead (sortedImages (FsTree.dir rootName children)) j) j = true ∧
      dupAtB (sortedImages (FsTree.dir rootName children))
        (ghead (sortedImages (FsTree.dir rootName children)) j)
        (ghead (sortedImages (FsTree.dir rootName children)) j) = false ∧
      (getImg (mainPipeline (FsTree.dir rootName children)).images
          (ghead (sortedImages (FsTree.dir rootName children)) j)).path =
        (getImg (sortedImages (FsTree.dir rootName children))
          (ghead (sortedImages (FsTree.dir rootName children)) j)).path ∧
      ((getImg (sortedImages (FsTree.dir rootName children)) j).path ++ "." ++
          DUPLICATE_EXTENSION,
        (getImg (sortedImages (FsTree.dir rootName children))
          (ghead (sortedImages (FsTree.dir rootName children)) j)).path) ∈
        (mainPipeline (FsTree.dir rootName children)).log) := by
  obtain ⟨hclean, hwf, hhash⟩ := sortedImages_facts rootName children hwfn
  have hsort := sort_sizes_mono (walkEntry (FsTree.dir rootName children)
    (FsTree.dir rootName children).name 0).images
  have inv := mark_characterization (sortedImages (FsTree.dir rootName children))
    hclean hwf hsort hhash
  refine ⟨inv.dup_iff j hj, ?_, ?_⟩
  · intro hD
    simpa [hD] using inv.path_eq j hj
  · intro hD
    obtain ⟨hgle, hgsame, hgmin⟩ :=
      ghead_spec (sortedImages (FsTree.dir rootName children)) j
    have hghn : ghead (sortedImages (FsTree.dir rootName children)) j <
        (sortedImages (FsTree.dir rootName children)).length := lt_of_le_of_lt hgle hj
    have hheadnodup : dupAtB (sortedImages (FsTree.dir rootName children))
        (ghead (sortedImages (FsTree.dir rootName children)) j)
        (ghead (sortedImages (FsTree.dir rootName children)) j) = false := by
      rcases Bool.eq_false_or_eq_true (dupAtB (sortedImages (FsTree.dir rootName children))
          (ghead (sortedImages (FsTree.dir rootName children)) j)
          (ghead (sortedImages (FsTree.dir rootName children)) j)) with htrue | hfalse
      · exfalso
        obtain ⟨i, hib, _, hsame⟩ := dupAtB_iff.mp htrue
        have hcontr := sameB_trans hsame hgsame
        rw [hgmin i hib] at hcontr
        exact absurd hcontr (by simp)
      · exact hfalse
    refine ⟨by simpa [hD] using inv.path_eq j hj, hgsame, hheadnodup,
      by simpa [hheadnodup] using inv.path_eq _ hghn, inv.log_has j hj hD⟩

/-- Witness for C1 at the three-identical-files tree, record index 1 (the
middle record of the sorted sequence, a duplicate of the group head 0). -/
theorem pipeline_duplicate_groups_witness :
    FsTree.wfList [FsTree.file "a.txt" "X" (some 1) 5,
      FsTree.file "b.txt" "X" (some 2) 6, FsTree.file "c.txt" "X" (some 3) 7] = true ∧
    1 < (sortedImages (FsTree.dir "/photos" [FsTree.file "a.txt" "X" (some 1) 5,
      FsTree.file "b.txt" "X" (some 2) 6, FsTree.file "c.txt" "X" (some 3) 7] )).length ∧
    (((getImg (mainPipeline (FsTree.dir "/photos" [FsTree.file "a.txt" "X" (some 1) 5,
        FsTree.file "b.txt" "X" (some 2) 6,
        FsTree.file "c.txt" "X" (some 3) 7] )).images 1).is_duplicate = true ↔
      dupAtB (sortedImages (FsTree.dir "/photos" [FsTree.file "a.txt" "X" (some 1) 5,
        FsTree.file "b.txt" "X" (some 2) 6,
        FsTree.file "c.txt" "X" (some 3) 7] )) 1 1 = true) ∧
    (dupAtB (sortedImages (FsTree.dir "/photos" [FsTree.file "a.txt" "X" (some 1) 5,
        FsTree.file "b.txt" "X" (some 2) 6,
        FsTree.file "c.txt" "X" (some 3) 7] )) 1 1 = false →
      (getImg (mainPipeline (FsTree.dir "/photos" [FsTree.file "a.txt" "X" (some 1) 5,
        FsTree.file "b.txt" "X" (some 2) 6,
        FsTree.file "c.txt" "X" (some 3) 7] )).images 1).path =
        (getImg (sortedImages (FsTree.dir "/photos" [FsTree.file "a.txt" "X" (some 1) 5,
          FsTree.file "b.txt" "X" (some 2) 6,
          FsTree.file "c.txt" "X" (some 3) 7] )) 1).path) ∧
    (dupAtB (sortedImages (FsTree.dir "/photos" [FsTree.file "a.txt" "X" (some 1) 5,
        FsTree.file "b.txt" "X" (some 2) 6,
        FsTree.file "c.txt" "X" (some 3) 7] )) 1 1 = true →
      (getImg (mainPipeline (FsTree.dir "/photos" [FsTree.file "a.txt" "X" (some 1) 5,
        FsTree.file "b.txt" "X" (some 2) 6,
        FsTree.file "c.txt" "X" (some 3) 7] )).images 1).path =
        (getImg (sortedImages (FsTree.dir "/photos" [FsTree.file "a.txt" "X" (some 1) 5,
          FsTree.file "b.txt" "X" (some 2) 6,
          FsTree.file "c.txt" "X" (some 3) 7] )) 1).path ++ "." ++
          DUPLICATE_EXTENSION ∧
      sameB (sortedImages (FsTree.dir "/photos" [FsTree.file "a.txt" "X" (some 1) 5,
          FsTree.file "b.txt" "X" (some 2) 6, FsTree.file "c.txt" "X" (some 3) 7] ))
        (ghead (sortedImages (FsTree.dir "/photos" [FsTree.file "a.txt" "X" (some 1) 5,
          FsTree.file "b.txt" "X" (some 2) 6,
          FsTree.file "c.txt" "X" (some 3) 7] )) 1) 1 = true ∧
      dupAtB (sortedImages (FsTree.dir "/photos" [FsTree.file "a.txt" "X" (some 1) 5,
          FsTree.file "b.txt" "X" (some 2) 6, FsTree.file "c.txt" "X" (some 3) 7] ))
        (ghead (sortedImages (FsTree.dir "/photos" [FsTree.file "a.txt" "X" (some 1) 5,
          FsTree.file "b.txt" "X" (some 2) 6, FsTree.file "c.txt" "X" (some 3) 7] )) 1)
        (ghead (sortedImages (FsTree.dir "/photos" [FsTree.file "a.txt" "X" (some 1) 5,
          FsTree.file "b.txt" "X" (some 2) 6,
          FsTree.file "c.txt" "X" (some 3) 7] )) 1) = false ∧
      (getImg (mainPipeline (FsTree.dir "/photos" [FsTree.file "a.txt" "X" (some 1) 5,
          FsTree.file "b.txt" "X" (some 2) 6,
          FsTree.file "c.txt" "X" (some 3) 7] )).images
          (ghead (sortedImages (FsTree.dir "/photos" [FsTree.file "a.txt" "X" (some 1) 5,
            FsTree.file "b.txt" "X" (some 2) 6,
            FsTree.file "c.txt" "X" (some 3) 7] )) 1)).path =
        (getImg (sortedImages (FsTree.dir "/photos" [FsTree.file "a.txt" "X" (some 1) 5,
            FsTree.file "b.txt" "X" (some 2) 6, FsTree.file "c.txt" "X" (some 3) 7] ))
          (ghead (sortedImages (FsTree.dir "/photos" [FsTree.file "a.txt" "X" (some 1) 5,
            FsTree.file "b.txt" "X" (some 2) 6,
            FsTree.file "c.txt" "X" (some 3) 7] )) 1)).path ∧
      ((getImg (sortedImages (FsTree.dir "/photos" [FsTree.file "a.txt" "X" (some 1) 5,
          FsTree.file "b.txt" "X" (some 2) 6,
          FsTree.file "c.txt" "X" (some 3) 7] )) 1).path ++ "." ++
          DUPLICATE_EXTENSION,
        (getImg (sortedImages (FsTree.dir "/photos" [FsTree.file "a.txt" "X" (some 1) 5,
            FsTree.file "b.txt" "X" (some 2) 6, FsTree.file "c.txt" "X" (some 3) 7] ))
          (ghead (sortedImages (FsTree.dir "/photos" [FsTree.file "a.txt" "X" (some 1) 5,
            FsTree.file "b.txt" "X" (some 2) 6,
            FsTree.file "c.txt" "X" (some 3) 7] )) 1)).path) ∈
        (mainPipeline (FsTree.dir "/photos" [FsTree.file "a.txt" "X" (some 1) 5,
          FsTree.file "b.txt" "X" (some 2) 6,
          FsTree.file "c.txt" "X" (some 3) 7] )).log)) :=
  ⟨by simp only [FsTree.wfList, FsTree.wfNames]; decide,
    by rw [sorted_three_identical]; decide,
    pipeline_duplicate_groups "/photos" [FsTree.file "a.txt" "X" (some 1) 5,
      FsTree.file "b.txt" "X" (some 2) 6, FsTree.file "c.txt" "X" (some 3) 7]
      (by simp only [FsTree.wfList, FsTree.wfNames]; decide) 1
      (by rw [sorted_three_identical]; decide)⟩

/-! ### Claim C8: a second run performs no renames and appends no log entries -/

theorem afterHash_hashValue (d : ImageData) : d.afterHash.hashValue = d.hashValue := rfl

theorem hashValue_of_hash_none {d : ImageData} (h : d.hash = none) :
    d.hashValue = d.content := by
  unfold ImageData.hashValue
  rw [h]
  rfl

theorem pctState_duplicate_count (base prevPct : Nat) (s : MarkState) :
    (pctState base prevPct s).duplicate_count = s.duplicate_count := by
  unfold pctState
  dsimp only
  split_ifs <;> rfl

/-- State predicate of a run over records that are pairwise distinct in
size and content: every record keeps its path, size and digest value,
nothing is logged or counted, and no marking event ever occurs. -/
def NoMarkInv (l : List ImageData) (st : MarkState) : Prop :=
  st.images.length = l.length ∧
  (∀ k, (getImg st.images k).path = (getImg l k).path) ∧
  (∀ k, (getImg st.images k).size = (getImg l k).size) ∧
  (∀ k, (getImg st.images k).hashValue = (getImg l k).hashValue) ∧
  st.log = [] ∧
  st.duplicate_count = 0 ∧
  (∀ e ∈ st.events, ∀ b c o n bp, e ≠ MarkEvent.marked b c o n bp)

theorem innerBody_noMark {l : List ImageData}
    (hclean : ∀ k, k < l.length → (getImg l k).is_duplicate = false)
    (hhash : ∀ k, (getImg l k).hash = none)
    (hdist : ∀ i k, i < k → k < l.length → sameB l i k = false) :
    ∀ j s base, base < j → j < s.images.length → base < s.images.length →
      (getImg s.images j).size = (getImg s.images base).size →
      NoMarkInv l s → NoMarkInv l (innerBody base j s) := by
  intro j s base hbj hj hb hsz hp
  obtain ⟨hlen, hpath, hsizes, hhv, hlog, hcnt, hev⟩ := hp
  have hjl : j < l.length := by omega
  have hbl : base < l.length := by omega
  have hne : base ≠ j := by omega
  have h1 : (getImg s.images j).is_duplicate = false := by
    show pathIsDuplicate (getImg s.images j).path = false
    rw [hpath j]
    exact hclean j hjl
  have h2 : (getImg s.images j).hashValue ≠ (getImg s.images base).hashValue := by
    intro heq
    have hs : sameB l base j = true := by
      rw [sameB_iff]
      constructor
      · rw [← hsizes base, ← hsizes j]
        exact hsz.symm
      · rw [← hashValue_of_hash_none (hhash base), ← hashValue_of_hash_none (hhash j),
          ← hhv base, ← hhv j]
        exact heq.symm
    rw [hdist base j hbj hjl] at hs
    exact absurd hs (by simp)
  rw [innerBody_eq_of_ne hne h1 h2]
  have himg : ∀ k, getImg ((s.images.set j (getImg s.images j).afterHash).set base
      (getImg s.images base).afterHash) k = getImg s.images k ∨
      getImg ((s.images.set j (getImg s.images j).afterHash).set base
        (getImg s.images base).afterHash) k = (getImg s.images k).afterHash := by
    intro k
    by_cases hkb : k = base
    · subst hkb
      right
      rw [getImg_set_self (by simp only [List.length_set]; exact hb)]
    · rw [getImg_set_ne (fun h => hkb h.symm)]
      by_cases hkj : k = j
      · subst hkj
        right
        rw [getImg_set_self hj]
      · left
        rw [getImg_set_ne (fun h => hkj h.symm)]
  refine ⟨by simp only [List.length_set]; exact hlen, ?_, ?_, ?_, hlog, hcnt, ?_⟩
  · intro k
    rcases himg k with h | h
    · rw [h]
      exact hpath k
    · rw [h, afterHash_path]
      exact hpath k
  · intro k
    rcases himg k with h | h
    · rw [h]
      exact hsizes k
    · rw [h, afterHash_size]
      exact hsizes k
  · intro k
    rcases himg k with h | h
    · rw [h]
      exact hhv k
    · rw [h, afterHash_hashValue]
      exact hhv k
  · intro e he b c o n bp
    simp only [List.mem_append] at he
    rcases he with ((he | he) | he) | he
    · exact hev e he b c o n bp
    · split at he
      · rw [List.mem_singleton] at he
        subst he
        simp
      · simp at he
    · split at he
      · rw [List.mem_singleton] at he
        subst he
        simp
      · simp at he
    · rw [List.mem_singleton] at he
      subst he
      simp

/-- Over a clean, pristine, pairwise-distinct record list, the whole
marking pass mutates nothing observable: no path changes, empty log, zero
duplicate count, no marking events. -/
theorem mark_duplicates_no_marks (l : List ImageData)
    (hclean : ∀ k, k < l.length → (getImg l k).is_duplicate = false)
    (hhash : ∀ k, (getImg l k).hash = none)
    (hdist : ∀ i k, i < k → k < l.length → sameB l i k = false) :
    NoMarkInv l (ImageSet.mark_duplicates l) := by
  unfold ImageSet.mark_duplicates
  refine outerLoop_preserve (NoMarkInv l) ?_ ?_ 0 101 (initMarkState l) ?_
  · intro base prevPct s hb hp
    obtain ⟨hlen, hpath, hsizes, hhv, hlog, hcnt, hev⟩ := hp
    refine ⟨?_, ?_, ?_, ?_, ?_, ?_, ?_⟩
    · rw [pctState_images]
      exact hlen
    · intro k
      rw [pctState_images]
      exact hpath k
    · intro k
      rw [pctState_images]
      exact hsizes k
    · intro k
      rw [pctState_images]
      exact hhv k
    · rw [pctState_log]
      exact hlog
    · rw [pctState_duplicate_count]
      exact hcnt
    · intro e he
      rw [pctState_events] at he
      exact hev e he
  · intro j s base hbj hj hb hsz hnd hp
    exact innerBody_noMark hclean hhash hdist j s base hbj hj hb hsz hp
  · exact ⟨rfl, fun k => rfl, fun k => rfl, fun k => rfl, rfl, rfl,
      fun e he => absurd he (List.not_mem_nil e)⟩


/-- Characters of a path before its final `/` — Rust `Path::parent()` for
the slash-containing paths this program builds (empty for a
single-component relative path). -/
def parentDir (p : String) : String :=
  ⟨((p.data.reverse.dropWhile (fun c => c ≠ '/')).drop 1).reverse⟩

/-- Path of the log file `add_to_logfile` opens for a duplicate at `p`:
`dup_file.parent().unwrap().join("duplicates.log")` — `duplicates.log` in
the duplicate's directory (for a parent of `/` or of `""`, `join` yields
`/duplicates.log` resp. `duplicates.log`). -/
def logfileFor (p : String) : String :=
  if '/' ∈ p.data then
    (if parentDir p = "" then "/duplicates.log"
     else parentDir p ++ "/" ++ "duplicates.log")
  else "duplicates.log"

/-- One line written by `add_to_logfile` for a log entry
`(duplicate path, original path)`: `"{duplicate} is duplicate of
{original}"` plus the `writeln!` newline. -/
def logLine (e : String × String) : String :=
  e.1 ++ " is duplicate of " ++ e.2 ++ "\n"

/-- Bytes of the log file at path `lf` after a run whose appended entries
are `entries` (in chronological order): the lines of the entries whose
duplicate lives in that file's directory, in append order. -/
def logLines (entries : List (String × String)) (lf : String) : String :=
  (entries.filter (fun e => logfileFor e.1 == lf)).foldl
    (fun acc e => acc ++ logLine e) ""

/-- Records of the `duplicates.log` files `add_to_logfile` created during
a run: one per directory that received a duplicate, holding that file's
appended lines; `ts` assigns the creation timestamps the file system
reports for these newly created files. -/
def logFiles (st : MarkState) (ts : String → Int) : List ImageData :=
  ((st.log.map (fun e => logfileFor e.1)).dedup).map
    (fun lf => ⟨lf, ts lf, (logLines st.log lf).length, logLines st.log lf, none⟩)

theorem pathIsDuplicate_of_lastComponent {q : String}
    (h : lastComponent q.data = "duplicates.log".data) :
    pathIsDuplicate q = false := by
  unfold pathIsDuplicate
  rw [h]
  decide

theorem logfileFor_not_duplicate (p : String) :
    pathIsDuplicate (logfileFor p) = false := by
  unfold logfileFor
  split
  · split
    · decide
    · exact pathIsDuplicate_of_lastComponent
        (lastComponent_join (parentDir p) "duplicates.log" (by decide))
  · decide

theorem logFiles_mem {st : MarkState} {ts : String → Int} {f : ImageData}
    (hf : f ∈ logFiles st ts) : f.is_duplicate = false ∧ f.hash = none := by
  unfold logFiles at hf
  rw [List.mem_map] at hf
  obtain ⟨lf, hlf, hmf⟩ := hf
  subst hmf
  rw [List.mem_dedup, List.mem_map] at hlf
  obtain ⟨e, he, hlfe⟩ := hlf
  subst hlfe
  exact ⟨logfileFor_not_duplicate e.1, rfl⟩

/-- Record list the second invocation of the program hands to
`mark_duplicates`: discovery on the directory state left by a completed
run returns fresh records (empty hash cache) for the files without the
sentinel extension — the non-duplicate survivors of the first run together
with the `duplicates.log` files it wrote — and `main` then sorts them
(`ImageSet::new` followed by `ImageSet::sort`; the sort normalises
whatever order the directory walk produced, and `ts` supplies the log
files' creation timestamps). This is the real second-run input provided no
scanned file of the first run was itself named `duplicates.log` (such a
file's bytes would change between runs when a duplicate appears in its
directory). -/
def secondRunInput (st : MarkState) (ts : String → Int) : List ImageData :=
  ImageSet.sort (((st.images.filter (fun d => !d.is_duplicate)).map
    (fun d => { d with hash := none })) ++ logFiles st ts)

theorem secondRunInput_perm (st : MarkState) (ts : String → Int) :
    (secondRunInput st ts).Perm (((st.images.filter (fun d => !d.is_duplicate)).map
      (fun d => { d with hash := none })) ++ logFiles st ts) :=
  List.mergeSort_perm _ imageLE

theorem secondRunInput_mem {st : MarkState} {ts : String → Int} {d : ImageData}
    (hd : d ∈ secondRunInput st ts) :
    d.is_duplicate = false ∧ d.hash = none := by
  have hmem := (secondRunInput_perm st ts).mem_iff.mp hd
  rw [List.mem_append] at hmem
  rcases hmem with hmem | hmem
  · rw [List.mem_map] at hmem
    obtain ⟨e, he, hme⟩ := hmem
    subst hme
    have hnd : e.is_duplicate = false := by
      have := List.of_mem_filter he
      simpa using this
    exact ⟨hnd, rfl⟩
  · exact logFiles_mem hmem

theorem walk_logcollide :
    (walkEntry (FsTree.dir "/p" [FsTree.file "a.txt" "X" (some 1) 5,
      FsTree.file "b.txt" "X" (some 2) 6,
      FsTree.file "c.txt" "/p/b.txt.duplicate is duplicate of /p/a.txt\n" (some 3) 7] )
      (FsTree.name (FsTree.dir "/p" [FsTree.file "a.txt" "X" (some 1) 5,
        FsTree.file "b.txt" "X" (some 2) 6,
        FsTree.file "c.txt" "/p/b.txt.duplicate is duplicate of /p/a.txt\n"
          (some 3) 7] )) 0).images =
    [⟨"/p/a.txt", 1, 1, "X", none⟩, ⟨"/p/b.txt", 2, 1, "X", none⟩,
      ⟨"/p/c.txt", 3, 44, "/p/b.txt.duplicate is duplicate of /p/a.txt\n", none⟩] := by
  show (walkEntry _ "/p" 0).images = _
  rw [walkEntry]
  rw [if_neg (by decide)]
  rw [walkChildren, walkEntry]
  rw [if_neg (by decide)]
  rw [walkChildren, walkEntry]
  rw [if_neg (by decide)]
  rw [walkChildren, walkEntry]
  rw [if_neg (by decide)]
  rw [walkChildren]
  simp [WalkResult.append, mkImageData, get_create_time, FsTree.name]
  refine ⟨rfl, ?_⟩
  rw [if_neg (by decide)]
  rfl

unseal List.merge List.mergeSort in
theorem sorted_logcollide :
    sortedImages (FsTree.dir "/p" [FsTree.file "a.txt" "X" (some 1) 5,
      FsTree.file "b.txt" "X" (some 2) 6,
      FsTree.file "c.txt" "/p/b.txt.duplicate is duplicate of /p/a.txt\n" (some 3) 7] ) =
    [⟨"/p/a.txt", 1, 1, "X", none⟩, ⟨"/p/b.txt", 2, 1, "X", none⟩,
      ⟨"/p/c.txt", 3, 44, "/p/b.txt.duplicate is duplicate of /p/a.txt\n", none⟩] := by
  unfold sortedImages
  rw [walk_logcollide]
  decide

theorem main_logcollide :
    mainPipeline (FsTree.dir "/p" [FsTree.file "a.txt" "X" (some 1) 5,
      FsTree.file "b.txt" "X" (some 2) 6,
      FsTree.file "c.txt" "/p/b.txt.duplicate is duplicate of /p/a.txt\n" (some 3) 7] ) =
    ImageSet.mark_duplicates [⟨"/p/a.txt", 1, 1, "X", none⟩, ⟨"/p/b.txt", 2, 1, "X", none⟩,
      ⟨"/p/c.txt", 3, 44, "/p/b.txt.duplicate is duplicate of /p/a.txt\n", none⟩] := by
  unfold mainPipeline
  rw [sorted_logcollide]

unseal List.merge List.mergeSort innerLoop outerLoop in
/-- Counterexample to C8 as stated: the first run also writes
`duplicates.log` files into the scanned tree, and a second run discovers
them. With `a.txt` and `b.txt` identical and `c.txt` containing exactly
the log line the first run will write, the second run finds `c.txt` and
`/p/duplicates.log` with equal size and content, renames one of them and
appends a new log entry — an additional rename and log entry on the
second run. -/
theorem second_run_extra_rename_counterexample :
    (ImageSet.mark_duplicates (secondRunInput
        (mainPipeline (FsTree.dir "/p" [FsTree.file "a.txt" "X" (some 1) 5,
          FsTree.file "b.txt" "X" (some 2) 6,
          FsTree.file "c.txt" "/p/b.txt.duplicate is duplicate of /p/a.txt\n"
            (some 3) 7] )) (fun _ => 9))).duplicate_count = 1 ∧
    (ImageSet.mark_duplicates (secondRunInput
        (mainPipeline (FsTree.dir "/p" [FsTree.file "a.txt" "X" (some 1) 5,
          FsTree.file "b.txt" "X" (some 2) 6,
          FsTree.file "c.txt" "/p/b.txt.duplicate is duplicate of /p/a.txt\n"
            (some 3) 7] )) (fun _ => 9))).log =
      [("/p/duplicates.log" ++ "." ++ DUPLICATE_EXTENSION, "/p/c.txt")] := by
  rw [main_logcollide]
  decide

/-- Claim C8 (amended): a second run of the full pipeline on the directory
state left by a completed first run — the non-duplicate survivors plus the
`duplicates.log` files the first run wrote — performs no renames, appends
no log entries, counts no duplicates and emits no marking event, PROVIDED
the written log files collide with nothing: no scanned file of the first
run was itself named `duplicates.log` (`hnolog`, the condition under which
`secondRunInput` is the real second-run discovery), no two written log
files share size and content (`hlogdist`), and no surviving file shares
size and content with a written log file (`hcross`). Without these
provisos the claim is false — see the counterexample, where a survivor's
bytes equal a log file's content and the second run renames and logs
again. -/
theorem second_run_is_noop (rootName : String) (children : List FsTree)
    (ts : String → Int)
    (hwfn : FsTree.wfList children = true)
    (hnolog : ∀ d ∈ sortedImages (FsTree.dir rootName children),
      lastComponent d.path.data ≠ "duplicates.log".data)
    (hlogdist : List.Pairwise (fun a b : ImageData =>
      ¬(a.size = b.size ∧ a.content = b.content))
      (logFiles (mainPipeline (FsTree.dir rootName children)) ts))
    (hcross : ∀ d ∈ (mainPipeline (FsTree.dir rootName children)).images,
      d.is_duplicate = false →
      ∀ f ∈ logFiles (mainPipeline (FsTree.dir rootName children)) ts,
      ¬(d.size = f.size ∧ d.content = f.content)) :
    (ImageSet.mark_duplicates (secondRunInput
        (mainPipeline (FsTree.dir rootName children)) ts)).log = [] ∧
    (ImageSet.mark_duplicates (secondRunInput
        (mainPipeline (FsTree.dir rootName children)) ts)).duplicate_count = 0 ∧
    (∀ e ∈ (ImageSet.mark_duplicates (secondRunInput
        (mainPipeline (FsTree.dir rootName children)) ts)).events,
      ∀ b c o n bp, e ≠ MarkEvent.marked b c o n bp) ∧
    (∀ k, (getImg (ImageSet.mark_duplicates (secondRunInput
        (mainPipeline (FsTree.dir rootName children)) ts)).images k).path =
      (getImg (secondRunInput (mainPipeline (FsTree.dir rootName children)) ts) k).path) := by
  have _hmodel := hnolog
  unfold mainPipeline at hlogdist hcross ⊢
  obtain ⟨hclean, hwf, hhash⟩ := sortedImages_facts rootName children hwfn
  have hsort := sort_sizes_mono (walkEntry (FsTree.dir rootName children)
    (FsTree.dir rootName children).name 0).images
  have inv := mark_characterization (sortedImages (FsTree.dir rootName children))
    hclean hwf hsort hhash
  have hP1 : List.Pairwise (fun a b : ImageData => a.is_duplicate = false →
      b.is_duplicate = false → ¬(a.size = b.size ∧ a.content = b.content))
      (ImageSet.mark_duplicates (sortedImages (FsTree.dir rootName children))).images := by
    rw [List.pairwise_iff_get]
    intro i j hij
    obtain ⟨i, hi⟩ := i
    obtain ⟨j, hj⟩ := j
    rw [← getImg_eq_get hi, ← getImg_eq_get hj]
    intro h1 h2 hcontra
    have hijn : i < j := Fin.mk_lt_mk.mp hij
    have hlen := inv.len
    have hjl : j < (sortedImages (FsTree.dir rootName children)).length := by omega
    have hDj : dupAtB (sortedImages (FsTree.dir rootName children)) j j = false := by
      rcases Bool.eq_false_or_eq_true
          (dupAtB (sortedImages (FsTree.dir rootName children)) j j) with ht | hf
      · exfalso
        have hd := (inv.dup_iff j hjl).mpr ht
        rw [h2] at hd
        exact absurd hd (by simp)
      · exact hf
    have hsame : sameB (sortedImages (FsTree.dir rootName children)) i j = true := by
      rw [sameB_iff]
      constructor
      · rw [← inv.size_eq i, ← inv.size_eq j]
        exact hcontra.1
      · rw [← inv.content_eq i, ← inv.content_eq j]
        exact hcontra.2
    have hDj2 : dupAtB (sortedImages (FsTree.dir rootName children)) j j = true :=
      dupAtB_iff.mpr ⟨i, hijn, hijn, hsame⟩
    rw [hDj] at hDj2
    exact absurd hDj2 (by simp)
  have hP3 : List.Pairwise (fun a b : ImageData =>
      ¬(a.size = b.size ∧ a.content = b.content))
      ((ImageSet.mark_duplicates (sortedImages (FsTree.dir rootName children))).images.filter
        (fun d => !d.is_duplicate)) := by
    refine (hP1.filter (fun d => !d.is_duplicate)).imp_of_mem ?_
    intro a b ha hb hq
    have hna : a.is_duplicate = false := by
      have := List.of_mem_filter ha
      simpa using this
    have hnb : b.is_duplicate = false := by
      have := List.of_mem_filter hb
      simpa using this
    exact hq hna hnb
  have hP4 : List.Pairwise (fun a b : ImageData =>
      ¬(a.size = b.size ∧ a.content = b.content))
      (((ImageSet.mark_duplicates (sortedImages (FsTree.dir rootName children))).images.filter
        (fun d => !d.is_duplicate)).map (fun d => { d with hash := none })) :=
    hP3.map (fun d : ImageData => ({ d with hash := none } : ImageData)) (fun a b h => h)
  have hP5 : List.Pairwise (fun a b : ImageData =>
      ¬(a.size = b.size ∧ a.content = b.content))
      ((((ImageSet.mark_duplicates (sortedImages (FsTree.dir rootName children))).images.filter
        (fun d => !d.is_duplicate)).map (fun d => { d with hash := none })) ++
        logFiles (ImageSet.mark_duplicates
          (sortedImages (FsTree.dir rootName children))) ts) := by
    rw [List.pairwise_append]
    refine ⟨hP4, hlogdist, ?_⟩
    intro a ha f hf
    rw [List.mem_map] at ha
    obtain ⟨d, hd, hda⟩ := ha
    subst hda
    have hdm : d ∈ (ImageSet.mark_duplicates
        (sortedImages (FsTree.dir rootName children))).images := List.mem_of_mem_filter hd
    have hnd : d.is_duplicate = false := by
      have := List.of_mem_filter hd
      simpa using this
    exact hcross d hdm hnd f hf
  have hPairs : List.Pairwise (fun a b : ImageData =>
      ¬(a.size = b.size ∧ a.content = b.content))
      (secondRunInput (ImageSet.mark_duplicates
        (sortedImages (FsTree.dir rootName children))) ts) :=
    (List.Perm.pairwise_iff (fun h hc => h ⟨hc.1.symm, hc.2.symm⟩)
      (secondRunInput_perm _ _)).mpr hP5
  have hdist : ∀ i k, i < k →
      k < (secondRunInput (ImageSet.mark_duplicates
        (sortedImages (FsTree.dir rootName children))) ts).length →
      sameB (secondRunInput (ImageSet.mark_duplicates
        (sortedImages (FsTree.dir rootName children))) ts) i k = false := by
    intro i k hik hk
    have hi : i < (secondRunInput (ImageSet.mark_duplicates
        (sortedImages (FsTree.dir rootName children))) ts).length := lt_trans hik hk
    rcases Bool.eq_false_or_eq_true (sameB (secondRunInput (ImageSet.mark_duplicates
        (sortedImages (FsTree.dir rootName children))) ts) i k) with ht | hf
    · exfalso
      rw [sameB_iff, getImg_eq_get hi, getImg_eq_get hk] at ht
      exact List.pairwise_iff_get.mp hPairs ⟨i, hi⟩ ⟨k, hk⟩ (Fin.mk_lt_mk.mpr hik) ht
    · exact hf
  have hcleanm : ∀ k, k < (secondRunInput (ImageSet.mark_duplicates
      (sortedImages (FsTree.dir rootName children))) ts).length →
      (getImg (secondRunInput (ImageSet.mark_duplicates
        (sortedImages (FsTree.dir rootName children))) ts) k).is_duplicate = false := by
    intro k hk
    exact (secondRunInput_mem (getImg_mem hk)).1
  have hhashm : ∀ k, (getImg (secondRunInput (ImageSet.mark_duplicates
      (sortedImages (FsTree.dir rootName children))) ts) k).hash = none := by
    intro k
    rcases Nat.lt_or_ge k (secondRunInput (ImageSet.mark_duplicates
        (sortedImages (FsTree.dir rootName children))) ts).length with hk | hk
    · exact (secondRunInput_mem (getImg_mem hk)).2
    · rw [getImg_of_ge hk]
      rfl
  obtain ⟨_, hpath, _, _, hlog, hcnt, hev⟩ :=
    mark_duplicates_no_marks _ hcleanm hhashm hdist
  exact ⟨hlog, hcnt, hev, hpath⟩

theorem walk_pics :
    (walkEntry (FsTree.dir "/pics" [FsTree.file "a.txt" "X" (some 1) 5,
      FsTree.file "b.txt" "X" (some 2) 6, FsTree.file "c.txt" "YY" (some 3) 7] )
      (FsTree.name (FsTree.dir "/pics" [FsTree.file "a.txt" "X" (some 1) 5,
        FsTree.file "b.txt" "X" (some 2) 6, FsTree.file "c.txt" "YY" (some 3) 7] )) 0).images =
    [⟨"/pics/a.txt", 1, 1, "X", none⟩, ⟨"/pics/b.txt", 2, 1, "X", none⟩,
      ⟨"/pics/c.txt", 3, 2, "YY", none⟩] := by
  show (walkEntry _ "/pics" 0).images = _
  rw [walkEntry]
  rw [if_neg (by decide)]
  rw [walkChildren, walkEntry]
  rw [if_neg (by decide)]
  rw [walkChildren, walkEntry]
  rw [if_neg (by decide)]
  rw [walkChildren, walkEntry]
  rw [if_neg (by decide)]
  rw [walkChildren]
  simp [WalkResult.append, mkImageData, get_create_time, FsTree.name]
  refine ⟨rfl, ?_⟩
  rw [if_neg (by decide)]
  rfl

unseal List.merge List.mergeSort in
theorem sorted_pics :
    sortedImages (FsTree.dir "/pics" [FsTree.file "a.txt" "X" (some 1) 5,
      FsTree.file "b.txt" "X" (some 2) 6, FsTree.file "c.txt" "YY" (some 3) 7] ) =
    [⟨"/pics/a.txt", 1, 1, "X", none⟩, ⟨"/pics/b.txt", 2, 1, "X", none⟩,
      ⟨"/pics/c.txt", 3, 2, "YY", none⟩] := by
  unfold sortedImages
  rw [walk_pics]
  decide

theorem main_pics :
    mainPipeline (FsTree.dir "/pics" [FsTree.file "a.txt" "X" (some 1) 5,
      FsTree.file "b.txt" "X" (some 2) 6, FsTree.file "c.txt" "YY" (some 3) 7] ) =
    ImageSet.mark_duplicates [⟨"/pics/a.txt", 1, 1, "X", none⟩,
      ⟨"/pics/b.txt", 2, 1, "X", none⟩, ⟨"/pics/c.txt", 3, 2, "YY", none⟩] := by
  unfold mainPipeline
  rw [sorted_pics]

unseal innerLoop outerLoop in
theorem logfiles_pics :
    logFiles (ImageSet.mark_duplicates [⟨"/pics/a.txt", 1, 1, "X", none⟩,
      ⟨"/pics/b.txt", 2, 1, "X", none⟩, ⟨"/pics/c.txt", 3, 2, "YY", none⟩]) (fun _ => 0) =
    [⟨"/pics/duplicates.log", 0, 50,
      "/pics/b.txt.duplicate is duplicate of /pics/a.txt\n", none⟩] := by
  decide

unseal innerLoop outerLoop in
/-- Witness for C8 at a tree with one duplicate pair and one distinct
file: the first run writes a single log file that collides with nothing,
and the second run over the survivors plus that log file changes
nothing. -/
theorem second_run_is_noop_witness :
    FsTree.wfList [FsTree.file "a.txt" "X" (some 1) 5,
      FsTree.file "b.txt" "X" (some 2) 6, FsTree.file "c.txt" "YY" (some 3) 7] = true ∧
    (∀ d ∈ sortedImages (FsTree.dir "/pics" [FsTree.file "a.txt" "X" (some 1) 5,
        FsTree.file "b.txt" "X" (some 2) 6, FsTree.file "c.txt" "YY" (some 3) 7] ),
      lastComponent d.path.data ≠ "duplicates.log".data) ∧
    List.Pairwise (fun a b : ImageData => ¬(a.size = b.size ∧ a.content = b.content))
      (logFiles (mainPipeline (FsTree.dir "/pics" [FsTree.file "a.txt" "X" (some 1) 5,
        FsTree.file "b.txt" "X" (some 2) 6,
        FsTree.file "c.txt" "YY" (some 3) 7] )) (fun _ => 0)) ∧
    (∀ d ∈ (mainPipeline (FsTree.dir "/pics" [FsTree.file "a.txt" "X" (some 1) 5,
        FsTree.file "b.txt" "X" (some 2) 6,
        FsTree.file "c.txt" "YY" (some 3) 7] )).images,
      d.is_duplicate = false →
      ∀ f ∈ logFiles (mainPipeline (FsTree.dir "/pics" [FsTree.file "a.txt" "X" (some 1) 5,
        FsTree.file "b.txt" "X" (some 2) 6,
        FsTree.file "c.txt" "YY" (some 3) 7] )) (fun _ => 0),
      ¬(d.size = f.size ∧ d.content = f.content)) ∧
    ((ImageSet.mark_duplicates (secondRunInput
        (mainPipeline (FsTree.dir "/pics" [FsTree.file "a.txt" "X" (some 1) 5,
          FsTree.file "b.txt" "X" (some 2) 6,
          FsTree.file "c.txt" "YY" (some 3) 7] )) (fun _ => 0))).log = [] ∧
      (ImageSet.mark_duplicates (secondRunInput
        (mainPipeline (FsTree.dir "/pics" [FsTree.file "a.txt" "X" (some 1) 5,
          FsTree.file "b.txt" "X" (some 2) 6,
          FsTree.file "c.txt" "YY" (some 3) 7] )) (fun _ => 0))).duplicate_count = 0 ∧
      (∀ e ∈ (ImageSet.mark_duplicates (secondRunInput
          (mainPipeline (FsTree.dir "/pics" [FsTree.file "a.txt" "X" (some 1) 5,
            FsTree.file "b.txt" "X" (some 2) 6,
            FsTree.file "c.txt" "YY" (some 3) 7] )) (fun _ => 0))).events,
        ∀ b c o n bp, e ≠ MarkEvent.marked b c o n bp) ∧
      (∀ k, (getImg (ImageSet.mark_duplicates (secondRunInput
          (mainPipeline (FsTree.dir "/pics" [FsTree.file "a.txt" "X" (some 1) 5,
            FsTree.file "b.txt" "X" (some 2) 6,
            FsTree.file "c.txt" "YY" (some 3) 7] )) (fun _ => 0))).images k).path =
        (getImg (secondRunInput (mainPipeline (FsTree.dir "/pics"
          [FsTree.file "a.txt" "X" (some 1) 5, FsTree.file "b.txt" "X" (some 2) 6,
            FsTree.file "c.txt" "YY" (some 3) 7] )) (fun _ => 0)) k).path)) :=
  ⟨by simp only [FsTree.wfList, FsTree.wfNames]; decide,
    by rw [sorted_pics]; decide,
    by rw [main_pics, logfiles_pics]; decide,
    by rw [main_pics, logfiles_pics]; decide,
    second_run_is_noop "/pics" [FsTree.file "a.txt" "X" (some 1) 5,
        FsTree.file "b.txt" "X" (some 2) 6, FsTree.file "c.txt" "YY" (some 3) 7]
      (fun _ => 0)
      (by simp only [FsTree.wfList, FsTree.wfNames]; decide)
      (by rw [sorted_pics]; decide)
      (by rw [main_pics, logfiles_pics]; decide)
      (by rw [main_pics, logfiles_pics]; decide)⟩
